import Mathlib

/-!
# tier2pool: the per-connection injection engine

A shallow embedding of `internal/extractor/extractor.go`, `internal/jsonrpc/client.go`,
`internal/jsonrpc/protocol.go` and `internal/stratum/nicehash.go`.

* Byte slices and Go strings are Lean strings.
* A Go function that touches the session is a function from the session to a result and the
  session it leaves behind (`Exec`).  A result is a value, a returned `error`, a run-time
  panic, or a goroutine that waits for ever on a held mutex.
* The libraries the engine calls (`encoding/json`, `net`, `net/url`, `crypto/rand`, the Redis
  client) are not part of the repository.  `encoding/json`, `net/url` and the dialers are
  parameters of the definitions (`Json`, `Network`); sockets and the Redis server are small
  explicit state machines.
-/

namespace Tier2pool

/-! ## Results of Go calls -/

/-- Go `error` values, identified by their message. -/
abbrev GoError := String

/-- The ways a Go call can fail to return normally. -/
inductive Fault where
  /-- the call returned a non-nil `error` -/
  | error (err : GoError)
  /-- a run-time panic (nil dereference, index out of range) -/
  | panic (msg : String)
  /-- `sync.Mutex.Lock` on a mutex that is held: the caller does not continue -/
  | blocked
  deriving DecidableEq, Repr

deriving instance DecidableEq for Except

/-- Panic message of a method call through a nil interface or nil pointer. -/
def nilDereference : String := "invalid memory address or nil pointer dereference"

/-- Panic message of an index expression past the end of a slice. -/
def indexOutOfRange : String := "index out of range"

/-! ## internal/stratum/nicehash.go -/

def MethodNiceHashSubscribe : String := "mining.subscribe"
def MethodNiceHashNotify : String := "mining.notify"
def MethodNiceHashSubmit : String := "mining.submit"
def MethodNiceHashAuthorize : String := "mining.authorize"

/-- Raw JSON text (`json.RawMessage`). -/
abbrev RawMessage := String

/-- A decoded element of `NiceHashNotifyParams` (`[]any`): the engine only asks whether the
dynamic value is a Go `string`; every other JSON value is kept as its raw text. -/
inductive GoAny where
  | string (s : String)
  | other (json : RawMessage)
  deriving DecidableEq, Repr

/-- `type NiceHashNotifyParams []any`.  A nil slice and an empty slice are both `[]`: the
engine only indexes the slice and takes its length. -/
abbrev NiceHashNotifyParams := List GoAny

/-- `type NiceHashSubmitParams []string` (nil and empty are both `[]`, as above). -/
abbrev NiceHashSubmitParams := List String

/-! ## internal/jsonrpc/protocol.go -/

/-- `jsonrpc.Request`.  The zero value has `ID = 0` and every other field empty. -/
structure Request where
  ID : Int := 0
  Method : String := ""
  Params : RawMessage := ""
  Result : RawMessage := ""
  Worker : String := ""
  deriving DecidableEq, Repr

/-! ## encoding/json, as the engine uses it -/

/-- The uses of `encoding/json` in the engine.  `Marshal` of a `bool` and of a `[]string`
has no failing case in the library, so these two are total; the `if err != nil` that
follows them in the source is then dead and has no counterpart below. -/
structure Json where
  /-- `json.Unmarshal(data, &request)` into a zero `jsonrpc.Request` -/
  unmarshalRequest : String → Except GoError Request
  /-- `json.Marshal(request)` -/
  marshalRequest : Request → Except GoError String
  /-- `json.Unmarshal(raw, &params)` with `params` a `NiceHashSubmitParams` -/
  unmarshalSubmitParams : RawMessage → Except GoError NiceHashSubmitParams
  /-- `json.Unmarshal(raw, &params)` with `params` a `NiceHashNotifyParams` -/
  unmarshalNotifyParams : RawMessage → Except GoError NiceHashNotifyParams
  /-- `json.Marshal` of a `stratum.NiceHashSubmitParams` literal -/
  marshalStrings : List String → RawMessage
  /-- `json.Marshal(b)` for a `bool` -/
  marshalBool : Bool → RawMessage

/-! ## Sockets (`net.Conn`) -/

/-- What the engine can observe of one socket: the bytes it has accepted, whether writes
fail, whether it has been closed, and the read deadline last set (seconds on the clock). -/
structure NetConn where
  sent : String := ""
  writeErr : Option GoError := none
  closed : Bool := false
  readDeadline : Option Int := none
  deriving DecidableEq, Repr

namespace NetConn

/-- `net.Conn.Write`: all of `b` is taken, or nothing is and an error is returned. -/
def Write (c : NetConn) (b : String) : Except GoError Nat × NetConn :=
  if c.closed then (.error "use of closed network connection", c)
  else
    match c.writeErr with
    | some err => (.error err, c)
    | none => (.ok b.utf8ByteSize, { c with sent := c.sent ++ b })

/-- `net.Conn.Close`. -/
def Close (c : NetConn) : Except GoError Unit × NetConn :=
  if c.closed then (.error "use of closed network connection", c)
  else (.ok (), { c with closed := true })

/-- `net.Conn.SetReadDeadline`. -/
def SetReadDeadline (c : NetConn) (t : Int) : Except GoError Unit × NetConn :=
  if c.closed then (.error "use of closed network connection", c)
  else (.ok (), { c with readDeadline := some t })

end NetConn

/-! ## internal/jsonrpc/client.go -/

/-- `jsonrpc.conn`: a struct holding a `net.Conn` interface value, which may be nil. -/
structure conn where
  netConn : Option NetConn
  deriving DecidableEq, Repr

/-- A `jsonrpc.Conn` interface value: nil, or a pointer to a `conn`. -/
abbrev Conn := Option conn

/-- Turn a library result into a call result. -/
def liftErr {α : Type} : Except GoError α → Except Fault α
  | .ok a => .ok a
  | .error err => .error (.error err)

namespace conn

/-- `func (c *conn) Write(b []byte)`: writes `b` followed by one newline. -/
def Write (c : conn) (b : String) : Except Fault Nat × conn :=
  match c.netConn with
  | none => (.error (.panic nilDereference), c)
  | some nc => (liftErr (nc.Write (b ++ "\n")).1, { netConn := some (nc.Write (b ++ "\n")).2 })

/-- `func (c *conn) Close()`. -/
def Close (c : conn) : Except Fault Unit × conn :=
  match c.netConn with
  | none => (.error (.panic nilDereference), c)
  | some nc => (liftErr nc.Close.1, { netConn := some nc.Close.2 })

/-- `func (c *conn) SetReadDeadline(t time.Time)`. -/
def SetReadDeadline (c : conn) (t : Int) : Except Fault Unit × conn :=
  match c.netConn with
  | none => (.error (.panic nilDereference), c)
  | some nc => (liftErr (nc.SetReadDeadline t).1, { netConn := some (nc.SetReadDeadline t).2 })

/-- `func (c *conn) SetReadDeadlineBySecond(second int)`; `now` is `time.Now()` in seconds.
The duration `time.Second * time.Duration(second)` is an `int64` of nanoseconds, which does
not wrap for a `second` between -9223372036 and 9223372036; the sum below is the deadline
for such a `second`. -/
def SetReadDeadlineBySecond (c : conn) (now : Int) (second : Int) : Except Fault Unit × conn :=
  let second := if second = 0 then 3 else second
  c.SetReadDeadline (now + second)

end conn

namespace Conn

/-- A method call through the interface value: a nil interface panics. -/
def call {α : Type} (c : Conn) (m : conn → Except Fault α × conn) : Except Fault α × Conn :=
  match c with
  | none => (.error (.panic nilDereference), none)
  | some p => ((m p).1, some (m p).2)

def Write (c : Conn) (b : String) : Except Fault Nat × Conn := c.call (conn.Write · b)

def Close (c : Conn) : Except Fault Unit × Conn := c.call conn.Close

def SetReadDeadlineBySecond (c : Conn) (now second : Int) : Except Fault Unit × Conn :=
  c.call (conn.SetReadDeadlineBySecond · now second)

/-- The bytes the peer of this connection has received. -/
def sent : Conn → String
  | some ⟨some nc⟩ => nc.sent
  | _ => ""

/-- The read deadline currently armed on this connection. -/
def readDeadline : Conn → Option Int
  | some ⟨some nc⟩ => nc.readDeadline
  | _ => none

/-- The connection is backed by an open socket. -/
def isOpen : Conn → Bool
  | some ⟨some nc⟩ => !nc.closed
  | _ => false

/-- The connection is backed by an open socket whose writes succeed. -/
def writable : Conn → Bool
  | some ⟨some nc⟩ => !nc.closed && nc.writeErr.isNone
  | _ => false

/-- The interface value and the `net.Conn` inside it are both non-nil. -/
def live : Conn → Bool
  | some ⟨some _⟩ => true
  | _ => false

/-- The connection after its peer has received `s` more. -/
def push : Conn → String → Conn
  | some ⟨some nc⟩, s => some ⟨some { nc with sent := nc.sent ++ s }⟩
  | c, _ => c

end Conn

/-- `jsonrpc.New(netConn)`. -/
def jsonrpcNew (netConn : Option NetConn) : Conn := some { netConn := netConn }

/-! ## The correlation store (Redis) -/

/-- One key of the store. -/
structure RedisEntry where
  key : String
  value : String
  /-- remaining time to live, in seconds -/
  ttl : Nat
  deriving DecidableEq, Repr

/-- The Redis server as the engine sees it through `*redis.Client`. -/
structure Redis where
  entries : List RedisEntry := []
  /-- when set, every command fails with this error -/
  down : Option GoError := none
  deriving DecidableEq, Repr

namespace Redis

/-- The live entry stored under `key`. -/
def find (r : Redis) (key : String) : Option RedisEntry :=
  r.entries.find? (fun en => en.key == key)

/-- `redisClient.Get(ctx, key).Val()`: the value, or `""` when there is none or the command
failed. -/
def Get (r : Redis) (key : String) : String :=
  match r.down with
  | some _ => ""
  | none =>
    match r.find key with
    | some en => en.value
    | none => ""

/-- `redisClient.Set(ctx, key, value, ttl).Err()`. -/
def Set (r : Redis) (key value : String) (ttl : Nat) : Except GoError Unit × Redis :=
  match r.down with
  | some err => (.error err, r)
  | none =>
    (.ok (), { r with entries := ⟨key, value, ttl⟩ :: r.entries.filter (fun en => en.key != key) })

/-- The server after `secs` seconds: entries whose time to live has run out are gone. -/
def elapse (r : Redis) (secs : Nat) : Redis :=
  let live := r.entries.filter (fun en => secs < en.ttl)
  { r with entries := live.map (fun en => { en with ttl := en.ttl - secs }) }

end Redis

/-- `time.Minute`, in seconds. -/
def timeMinute : Nat := 60

/-! ## float64 (IEEE 754 binary64), as far as `New` uses it -/

def bitLenAux : Nat → Nat → Nat
  | 0, _ => 0
  | fuel + 1, n => if n = 0 then 0 else bitLenAux fuel (n / 2) + 1

/-- The number of binary digits of `n`: the least `k` with `n < 2 ^ k`. -/
def bitLen (n : Nat) : Nat := bitLenAux n n

/-- A `float64`.  `finite neg m e` is the number `(-1)^neg * m * 2^e`; a value of the Go type
has `m < 2^53` and `-1074 ≤ e ≤ 971`, and the operations below return such values.  `inf neg`
is the infinity of that sign, `nan` a NaN. -/
inductive float64 where
  | finite (neg : Bool) (m : Nat) (e : Int)
  | inf (neg : Bool)
  | nan
  deriving DecidableEq, Repr

namespace float64

/-- The number a finite value stands for (0 for an infinity and for NaN). -/
def toRat : float64 → ℚ
  | finite neg m e => (if neg then -1 else 1) * ((m : ℚ) * 2 ^ e)
  | _ => 0

def isFinite : float64 → Bool
  | finite .. => true
  | _ => false

/-- The `float64` nearest to `(-1)^neg * m * 2^e`, a tie going to the even significand
(the rounding of every arithmetic operation).  The result keeps 53 binary digits of `m`, fewer
below `2^-1022`, where the spacing of the values stays `2^-1074`; a result of `2^1024` or
more is the infinity. -/
def round (neg : Bool) (m : Nat) (e : Int) : float64 :=
  if m = 0 then finite neg 0 0
  else
    let q : Int := max (e + bitLen m - 53) (-1074)
    if q ≤ e then
      if 1024 < e + bitLen m then inf neg else finite neg m e
    else
      let s := (q - e).toNat
      let hi := m / 2 ^ s
      let lo := m % 2 ^ s
      let half := 2 ^ (s - 1)
      let r := if half < lo ∨ (lo = half ∧ hi % 2 = 1) then hi + 1 else hi
      if 1024 < q + bitLen r then inf neg else finite neg r q

/-- The product `x * y` of two `float64`: the exact product, rounded. -/
def mul : float64 → float64 → float64
  | nan, _ => nan
  | _, nan => nan
  | inf a, inf b => inf (xor a b)
  | inf a, finite b m _ => if m = 0 then nan else inf (xor a b)
  | finite a m _, inf b => if m = 0 then nan else inf (xor a b)
  | finite a m e, finite b n f => round (xor a b) (m * n) (e + f)

/-- The conversion `float64(n)` of an integer. -/
def ofInt (n : Int) : float64 := round (decide (n < 0)) n.natAbs 0

/-- The integer `(-1)^neg * m * 2^(e - k)`, for `k ≤ e`. -/
def scaled (neg : Bool) (m : Nat) (e k : Int) : Int :=
  (if neg then -1 else 1) * ((m : Int) * 2 ^ (e - k).toNat)

/-- The comparison `x < y`, false when either is NaN. -/
def lt : float64 → float64 → Bool
  | nan, _ => false
  | _, nan => false
  | inf a, inf b => a && !b
  | inf a, finite .. => a
  | finite .., inf b => !b
  | finite s m e, finite t n f => decide (scaled s m e (min e f) < scaled t n f (min e f))

/-- The comparison `x == 0`. -/
def isZero : float64 → Bool
  | finite _ m _ => decide (m = 0)
  | _ => false

/-- `math.Signbit`. -/
def signbit : float64 → Bool
  | finite neg _ _ => neg
  | inf neg => neg
  | nan => false

end float64

/-- `math.Min`: minus infinity if either argument is, else NaN if either is, else the zero
with the sign bit among two zeros, else the smaller. -/
def math.Min (x y : float64) : float64 :=
  if x = .inf true ∨ y = .inf true then .inf true
  else if x = .nan ∨ y = .nan then .nan
  else if x.isZero ∧ y.isZero then (if x.signbit then x else y)
  else if x.lt y then x else y

/-- The conversion `int64(f)` of a `float64`: truncation toward zero.  For NaN, an infinity
and a value outside the `int64` range the language leaves the result to the implementation;
the result here is the one of amd64, `-2^63`. -/
def int64 : float64 → Int
  | .finite neg m e =>
    let a : Int := if 0 ≤ e then (m : Int) * 2 ^ e.toNat else (m : Int) / 2 ^ (-e).toNat
    let t := if neg then -a else a
    if -2 ^ 63 ≤ t ∧ t < 2 ^ 63 then t else -2 ^ 63
  | _ => -2 ^ 63

/-! ## internal/token (not among the sources) and the configuration -/

/-- The currency tokens `token.ETH`, `token.ETC`, `token.XMR`.  The package that declares
them is not among the sources, so their values are a parameter. -/
structure Token where
  ETH : String
  ETC : String
  XMR : String

/-- `extractor.Option`. -/
structure ExtractorOption where
  Token : String := ""
  Pool : String := ""
  Wallet : String := ""
  Weight : float64 := .finite false 0 0
  Rename : String := ""
  Timeout : Int := 0
  deriving DecidableEq, Repr

/-! ## internal/extractor/extractor.go: constants -/

def JobInject : String := "inject"
def JobDevelop : String := "develop"

/-- Correction probability. -/
def Thread : Int := 3
def WeightUnit : Int := 1000 * Thread

def ErrDataIsTooLong : GoError := "data is too long"

def defaultDevelopWalletEthereum : String := "0x000000A52a03835517E9d193B3c27626e1Bc96b1"
def defaultDevelopWalletMonero : String :=
  "84TZwzCfHhkZ43JzygNqaN5ke6t3uRSD32rofAhV19jB1VNzDnkaciWN7c7tfqFvKt95f4Y6jyEecWzsnUHi1koZNqBveJb"

def defaultDevelopPoolETH : String := "tls://asia2.ethermine.org:5555"
def defaultDevelopPoolETC : String := "tls://asia1-etc.ethermine.org:5555"
def defaultDevelopPoolXMR : String := "tcp://sg.minexmr.com:4444"

/-- The develop share, 1%: the `float64` of the literal `0.01`, which is
`5764607523034235 * 2^-59`, the value nearest to `1/100`. -/
def defaultDevelopWeight : float64 := .finite false 5764607523034235 (-59)

/-! ## The session -/

/-- `type extractor struct`.  `locker` is true while the mutex is held; `redisClient` stands
for the server the client handle points to. -/
structure extractor where
  option : ExtractorOption
  localConn : Conn
  remoteConn : Conn
  injectConn : Conn
  developConn : Conn
  injectWeight : Int
  developWeight : Int
  redisClient : Redis
  locker : Bool := false
  deriving DecidableEq, Repr

/-- A Go call running on a state `σ`: its result, and the state it leaves behind.  Effects
made before a failure stay. -/
def Exec (σ α : Type) : Type := σ → Except Fault α × σ

namespace Exec

variable {σ α β : Type}

/-- Return `a` without touching the state. -/
def ret (a : α) : Exec σ α := fun s => (.ok a, s)

/-- Sequencing: a failure of the first call ends the whole call. -/
def andThen (m : Exec σ α) (f : α → Exec σ β) : Exec σ β := fun s =>
  match (m s).1 with
  | .ok a => f a (m s).2
  | .error x => (.error x, (m s).2)

instance : Monad (Exec σ) where
  pure := ret
  bind := andThen

/-- End the call with a fault. -/
def fail (x : Fault) : Exec σ α := fun s => (.error x, s)

/-- The statement `return err`. -/
def returnErr (err : GoError) : Exec σ α := fail (.error err)

/-- Read the state. -/
def get : Exec σ σ := fun s => (.ok s, s)

/-- A library call followed by `if err != nil` and `return err`. -/
def check (r : Except GoError α) : Exec σ α := fun s => (liftErr r, s)

/-- The pattern `_ = f()`: a returned error is dropped, anything else is kept. -/
def ignoreErr (m : Exec σ Unit) : Exec σ Unit := fun s =>
  match (m s).1 with
  | .error (.error _) => (.ok (), (m s).2)
  | r => (r, (m s).2)

end Exec

namespace extractor

/-- A method call on `e.localConn`. -/
def onLocal {α : Type} (m : Conn → Except Fault α × Conn) : Exec extractor α := fun e =>
  ((m e.localConn).1, { e with localConn := (m e.localConn).2 })

/-- A method call on `e.remoteConn`. -/
def onRemote {α : Type} (m : Conn → Except Fault α × Conn) : Exec extractor α := fun e =>
  ((m e.remoteConn).1, { e with remoteConn := (m e.remoteConn).2 })

/-- A method call on `e.injectConn`. -/
def onInject {α : Type} (m : Conn → Except Fault α × Conn) : Exec extractor α := fun e =>
  ((m e.injectConn).1, { e with injectConn := (m e.injectConn).2 })

/-- A method call on `e.developConn`. -/
def onDevelop {α : Type} (m : Conn → Except Fault α × Conn) : Exec extractor α := fun e =>
  ((m e.developConn).1, { e with developConn := (m e.developConn).2 })

/-- The call `e.redisClient.Set(ctx, key, value, ttl).Err()` with its `if err != nil`. -/
def redisSet (key value : String) (ttl : Nat) : Exec extractor Unit := fun e =>
  (liftErr (e.redisClient.Set key value ttl).1,
    { e with redisClient := (e.redisClient.Set key value ttl).2 })

/-- The call `e.locker.Lock()`. -/
def Lock : Exec extractor Unit := fun e =>
  if e.locker then (.error .blocked, e) else (.ok (), { e with locker := true })

/-- The call `e.locker.Unlock()`. -/
def Unlock : Exec extractor Unit := fun e =>
  if e.locker then (.ok (), { e with locker := false })
  else (.error (.panic "sync: unlock of unlocked mutex"), e)

/-- `func (e *extractor) inject(data []byte) error`. -/
def inject (data : String) : Exec extractor Unit := do
  Lock
  let _ ← onLocal (Conn.Write · data)
  Unlock
  pure ()

/-- `func (e *extractor) handleSubmit(id string, data []byte) error`. -/
def handleSubmit (J : Json) (id : String) (data : String) : Exec extractor Unit := do
  let e ← Exec.get
  let label := e.redisClient.Get id
  if label = JobInject then
    let request ← Exec.check (J.unmarshalRequest data)
    let request :=
      if request.Worker ≠ "" then { request with Worker := e.option.Rename } else request
    let injectData ← Exec.check (J.marshalRequest request)
    let _ ← onInject (Conn.Write · injectData)
    let result := J.marshalBool true
    let response : Request := { ID := request.ID, Result := result }
    let responseData ← Exec.check (J.marshalRequest response)
    inject responseData
  else if label = JobDevelop then
    let request ← Exec.check (J.unmarshalRequest data)
    let request :=
      if request.Worker ≠ "" then { request with Worker := "sponsors" } else request
    let developData ← Exec.check (J.marshalRequest request)
    let _ ← onDevelop (Conn.Write · developData)
    let result := J.marshalBool true
    let response : Request := { ID := request.ID, Result := result }
    let responseData ← Exec.check (J.marshalRequest response)
    inject responseData
  else
    let _ ← onRemote (Conn.Write · data)
    pure ()

/-- What `reader.ReadLine()` returned: `data, isPrefix, err`. -/
structure ReadLine where
  data : String
  isPrefix : Bool := false
  err : Option GoError := none
  deriving DecidableEq, Repr

/-- The two checks that follow every `reader.ReadLine()` in the pumps. -/
def afterRead (rd : ReadLine) : Exec extractor Unit :=
  match rd.err, decide (rd.data = "") with
  | some err, true => Exec.returnErr err
  | _, _ => if rd.isPrefix then Exec.returnErr ErrDataIsTooLong else pure ()

/-- The develop wallet chosen by the `switch e.option.Token` of the authorize case. -/
def developWalletOf (T : Token) (option : ExtractorOption) : String :=
  if option.Token = T.ETH ∨ option.Token = T.ETC then defaultDevelopWalletEthereum
  else if option.Token = T.XMR then defaultDevelopWalletMonero
  else option.Wallet

/-- One iteration of the loop of `func (e *extractor) handleInbound() error`: `now` is the
clock at the deadline call and `rd` what `ReadLine` returns on the miner connection. -/
def handleInboundStep (J : Json) (T : Token) (now : Int) (rd : ReadLine) :
    Exec extractor Unit := do
  let e ← Exec.get
  Exec.ignoreErr (onDevelop (Conn.SetReadDeadlineBySecond · now e.option.Timeout))
  afterRead rd
  let data := rd.data
  let request ← Exec.check (J.unmarshalRequest data)
  if request.Method = MethodNiceHashSubscribe then
    let _ ← onRemote (Conn.Write · data)
    if e.injectConn.isSome then
      let _ ← onInject (Conn.Write · data)
    let _ ← onDevelop (Conn.Write · data)
    pure ()
  else if request.Method = MethodNiceHashAuthorize then
    let mut request ← Exec.check (J.unmarshalRequest data)
    let _ ← onRemote (Conn.Write · data)
    if e.injectConn.isSome then
      let injectParams := J.marshalStrings [e.option.Wallet ++ "." ++ e.option.Rename, "x"]
      request := { request with Params := injectParams }
      let injectData ← Exec.check (J.marshalRequest request)
      let _ ← onInject (Conn.Write · injectData)
    let developWallet := developWalletOf T e.option
    let developParams := J.marshalStrings [developWallet ++ "." ++ "sponsors", "x"]
    request := { request with Params := developParams }
    let developData ← Exec.check (J.marshalRequest request)
    let _ ← onDevelop (Conn.Write · developData)
    pure ()
  else if request.Method = MethodNiceHashSubmit then
    let params ← Exec.check (J.unmarshalSubmitParams request.Params)
    match params with
    | _ :: id :: _ => handleSubmit J id data
    | _ => Exec.returnErr "invalid parameter"
  else
    let _ ← onRemote (Conn.Write · data)
    pure ()

/-- One iteration of the loop of `handleOutboundOrigin`. -/
def handleOutboundOriginStep (now : Int) (rd : ReadLine) : Exec extractor Unit := do
  let e ← Exec.get
  onDevelop (Conn.SetReadDeadlineBySecond · now e.option.Timeout)
  afterRead rd
  inject rd.data

/-- One iteration of the loop of `handleOutboundInject`; `draw` is what
`rand.Int(rand.Reader, big.NewInt(WeightUnit))` returns when it is called. -/
def handleOutboundInjectStep (J : Json) (now : Int) (rd : ReadLine)
    (draw : Except GoError Nat) : Exec extractor Unit := do
  let e ← Exec.get
  onInject (Conn.SetReadDeadlineBySecond · now e.option.Timeout)
  afterRead rd
  let data := rd.data
  let request ← Exec.check (J.unmarshalRequest data)
  if request.Method = MethodNiceHashNotify then
    let n ← Exec.check draw
    if (n : Int) < e.injectWeight then
      let params ← Exec.check (J.unmarshalNotifyParams request.Params)
      match params with
      | [] => Exec.fail (.panic indexOutOfRange)
      | .string id :: _ =>
        redisSet id JobInject timeMinute
        inject data
      | .other _ :: _ => Exec.returnErr "id format not support"
  else
    pure ()

/-- One iteration of the loop of `handleOutboundDevelop`. -/
def handleOutboundDevelopStep (J : Json) (now : Int) (rd : ReadLine)
    (draw : Except GoError Nat) : Exec extractor Unit := do
  let e ← Exec.get
  onDevelop (Conn.SetReadDeadlineBySecond · now e.option.Timeout)
  afterRead rd
  let data := rd.data
  let request ← Exec.check (J.unmarshalRequest data)
  if request.Method = MethodNiceHashNotify then
    let n ← Exec.check draw
    if (n : Int) < e.developWeight then
      let params ← Exec.check (J.unmarshalNotifyParams request.Params)
      match params with
      | [] => Exec.returnErr "invalid parameter"
      | .string id :: _ =>
        redisSet id JobDevelop timeMinute
        inject data
      | .other _ :: _ => Exec.returnErr "id format not support"
  else
    pure ()

end extractor

/-! ## Session construction -/

/-- What `url.Parse` keeps of a URL for `Dial`. -/
structure URL where
  Scheme : String
  Host : String
  deriving DecidableEq, Repr

/-- The network as `Dial` meets it: `url.Parse`, `tls.Dial("tcp", host, ...)` and
`net.Dial("tcp", host)`.  A successful dial yields a fresh socket. -/
structure Network where
  parse : String → Except GoError URL
  tlsDial : String → Except GoError NetConn
  netDial : String → Except GoError NetConn

/-- The `net.Conn` left in `netConn` by `netConn, err = dial(...)`: nil when the dial
failed. -/
def dialed : Except GoError NetConn → Option NetConn
  | .ok nc => some nc
  | .error _ => none

/-- `func Dial(rawURL string) (Conn, error)`.  The `err` assigned by the two dialers is never
read: the function returns `&conn` and a nil error after the switch. -/
def Dial (N : Network) (rawURL : String) : Except GoError Conn :=
  match N.parse rawURL with
  | .error err => .error err
  | .ok remoteURL =>
    if remoteURL.Scheme = "tls" ∨ remoteURL.Scheme = "ssl" then
      .ok (some { netConn := dialed (N.tlsDial remoteURL.Host) })
    else if remoteURL.Scheme = "tcp" then
      .ok (some { netConn := dialed (N.netDial remoteURL.Host) })
    else .error "scheme not support"

/-- Truncation of a rational toward zero, as the specification words it. -/
def truncate (x : ℚ) : Int := if 0 ≤ x then ⌊x⌋ else ⌈x⌉

/-- The `developWeight` field set by `New`:
`int64(float64(WeightUnit) * defaultDevelopWeight)`. -/
def newDevelopWeight : Int :=
  int64 (float64.mul (float64.ofInt WeightUnit) defaultDevelopWeight)

/-- The `injectWeight` field set by `New`: `int64(math.Min(float64(WeightUnit)*option.Weight,
float64(WeightUnit-int64(float64(WeightUnit)*defaultDevelopWeight))))`. -/
def newInjectWeight (weight : float64) : Int :=
  int64 (math.Min (float64.mul (float64.ofInt WeightUnit) weight)
    (float64.ofInt
      (WeightUnit - int64 (float64.mul (float64.ofInt WeightUnit) defaultDevelopWeight))))

/-- The three connection variables of `New`, as they stand when `New` returns. -/
structure Dials where
  remoteConn : Conn := none
  developConn : Conn := none
  injectConn : Conn := none
  deriving DecidableEq, Repr

namespace Dials

/-- The statement `remoteConn, err := jsonrpc.Dial(rawURL)` without the error check. -/
def dialRemote (N : Network) (rawURL : String) : Exec Dials (Option GoError) := fun d =>
  match Dial N rawURL with
  | .ok c => (.ok none, { d with remoteConn := c })
  | .error err => (.ok (some err), { d with remoteConn := none })

/-- The statement `developConn, err = jsonrpc.Dial(rawURL)`. -/
def dialDevelop (N : Network) (rawURL : String) : Exec Dials (Option GoError) := fun d =>
  match Dial N rawURL with
  | .ok c => (.ok none, { d with developConn := c })
  | .error err => (.ok (some err), { d with developConn := none })

/-- The statement `injectConn, err = jsonrpc.Dial(rawURL)`. -/
def dialInject (N : Network) (rawURL : String) : Exec Dials (Option GoError) := fun d =>
  match Dial N rawURL with
  | .ok c => (.ok none, { d with injectConn := c })
  | .error err => (.ok (some err), { d with injectConn := none })

/-- The statement `_ = remoteConn.Close()`. -/
def closeRemote : Exec Dials Unit :=
  Exec.ignoreErr (fun d => (d.remoteConn.Close.1, { d with remoteConn := d.remoteConn.Close.2 }))

/-- The statement `_ = developConn.Close()`. -/
def closeDevelop : Exec Dials Unit :=
  Exec.ignoreErr (fun d => (d.developConn.Close.1, { d with developConn := d.developConn.Close.2 }))

end Dials

/-- `func New(redisClient, localConn, remoteRawURL, option) (Extractor, error)`, run on the
three connection variables. -/
def NewExec (N : Network) (T : Token) (redisClient : Redis) (localConn : Option NetConn)
    (remoteRawURL : String) (option : ExtractorOption) : Exec Dials extractor := do
  let option := if option.Token = "" then { option with Token := T.ETH } else option
  let err ← Dials.dialRemote N remoteRawURL
  if let some err := err then
    Exec.returnErr err
  else
    let err ←
      if option.Token = T.ETH then Dials.dialDevelop N defaultDevelopPoolETH
      else if option.Token = T.ETC then Dials.dialDevelop N defaultDevelopPoolETC
      else if option.Token = T.XMR then Dials.dialDevelop N defaultDevelopPoolXMR
      else Exec.returnErr (option.Token ++ " token isn't supported")
    if err.isSome then
      Dials.closeRemote
    if option.Pool ≠ "" then
      let err ← Dials.dialInject N option.Pool
      if let some err := err then
        Dials.closeRemote
        Dials.closeDevelop
        Exec.returnErr err
    let d ← Exec.get
    pure {
      localConn := jsonrpcNew localConn
      remoteConn := d.remoteConn
      injectConn := d.injectConn
      developConn := d.developConn
      injectWeight := newInjectWeight option.Weight
      developWeight := newDevelopWeight
      redisClient := redisClient
      option := option }

/-- `New`, started with the three connection variables unset: the value it returns, and the
connections it has dialed. -/
def New (N : Network) (T : Token) (redisClient : Redis) (localConn : Option NetConn)
    (remoteRawURL : String) (option : ExtractorOption) : Except Fault extractor × Dials :=
  NewExec N T redisClient localConn remoteRawURL option {}

/-! ## A reference `encoding/json`

An executable instance of `Json`, working on the characters of the text.  It follows the
library for the JSON grammar, for decoding into `jsonrpc.Request`, `[]string` and `[]any`,
and for the encoder's output format (Go 1.22 and later, HTML escaping on). -/

namespace GoJson

def isSpace (c : Char) : Bool := c = ' ' || c = '\t' || c = '\n' || c = '\r'

def skipSpace : List Char → List Char
  | [] => []
  | c :: cs => if isSpace c then skipSpace cs else c :: cs

def hexDigit (c : Char) : Option Nat :=
  if '0' ≤ c ∧ c ≤ '9' then some (c.toNat - '0'.toNat)
  else if 'a' ≤ c ∧ c ≤ 'f' then some (c.toNat - 'a'.toNat + 10)
  else if 'A' ≤ c ∧ c ≤ 'F' then some (c.toNat - 'A'.toNat + 10)
  else none

/-- The value of four hexadecimal digits. -/
def hex4 (a b c d : Char) : Option Nat :=
  match hexDigit a, hexDigit b, hexDigit c, hexDigit d with
  | some x, some y, some z, some w => some (((x * 16 + y) * 16 + z) * 16 + w)
  | _, _, _, _ => none

/-- The rune of a `\u` escape: a surrogate that is alone becomes U+FFFD. -/
def runeOf (v : Nat) : Char :=
  if 0xD800 ≤ v ∧ v ≤ 0xDFFF then Char.ofNat 0xFFFD else Char.ofNat v

/-- The text after an opening quote: the decoded string (reversed in `acc`) and what
follows the closing quote. -/
def stringBody : List Char → List Char → Option (String × List Char)
  | [], _ => none
  | '"' :: cs, acc => some (String.mk acc.reverse, cs)
  | '\\' :: 'u' :: a :: b :: c :: d :: '\\' :: 'u' :: a2 :: b2 :: c2 :: d2 :: cs, acc =>
    match hex4 a b c d, hex4 a2 b2 c2 d2 with
    | some hi, some lo =>
      if 0xD800 ≤ hi ∧ hi < 0xDC00 ∧ 0xDC00 ≤ lo ∧ lo < 0xE000 then
        stringBody cs (Char.ofNat ((hi - 0xD800) * 0x400 + (lo - 0xDC00) + 0x10000) :: acc)
      else stringBody ('\\' :: 'u' :: a2 :: b2 :: c2 :: d2 :: cs) (runeOf hi :: acc)
    | _, _ => none
  | '\\' :: 'u' :: a :: b :: c :: d :: cs, acc =>
    match hex4 a b c d with
    | some v => stringBody cs (runeOf v :: acc)
    | none => none
  | '\\' :: e :: cs, acc =>
    if e = '"' ∨ e = '\\' ∨ e = '/' then stringBody cs (e :: acc)
    else if e = 'b' then stringBody cs (Char.ofNat 8 :: acc)
    else if e = 'f' then stringBody cs (Char.ofNat 12 :: acc)
    else if e = 'n' then stringBody cs ('\n' :: acc)
    else if e = 'r' then stringBody cs ('\r' :: acc)
    else if e = 't' then stringBody cs ('\t' :: acc)
    else none
  | c :: cs, acc => if c.toNat < 0x20 ∨ c = '\\' then none else stringBody cs (c :: acc)

def digits : List Char → List Char
  | [] => []
  | c :: cs => if c.isDigit then digits cs else c :: cs

/-- What follows a JSON number at the head of the text. -/
def number (cs : List Char) : Option (List Char) :=
  let cs := match cs with
    | '-' :: r => r
    | r => r
  let afterInt : Option (List Char) := match cs with
    | '0' :: r => some r
    | c :: r => if c.isDigit then some (digits r) else none
    | [] => none
  match afterInt with
  | none => none
  | some r =>
    let afterFrac : Option (List Char) := match r with
      | '.' :: c :: r2 => if c.isDigit then some (digits r2) else none
      | '.' :: [] => none
      | r2 => some r2
    match afterFrac with
    | none => none
    | some r3 =>
      match r3 with
      | e :: r4 =>
        if e = 'e' ∨ e = 'E' then
          let r5 := match r4 with
            | '+' :: q => q
            | '-' :: q => q
            | q => q
          match r5 with
          | c :: r6 => if c.isDigit then some (digits r6) else none
          | [] => none
        else some r3
      | [] => some []

/-- Where the scanner stands: before a value, before an array element, before a key. -/
inductive Mode where
  | value | elems | members

/-- What follows one JSON value (or the rest of an array or object), `none` when the text is
not valid JSON.  `fuel` bounds the number of steps. -/
def scan : Nat → Mode → List Char → Option (List Char)
  | 0, _, _ => none
  | fuel + 1, .value, cs =>
    match cs with
    | '"' :: r => (stringBody r []).map (·.2)
    | '[' :: r =>
      match skipSpace r with
      | ']' :: r2 => some r2
      | r2 => scan fuel .elems r2
    | '{' :: r =>
      match skipSpace r with
      | '}' :: r2 => some r2
      | r2 => scan fuel .members r2
    | 't' :: 'r' :: 'u' :: 'e' :: r => some r
    | 'f' :: 'a' :: 'l' :: 's' :: 'e' :: r => some r
    | 'n' :: 'u' :: 'l' :: 'l' :: r => some r
    | _ => number cs
  | fuel + 1, .elems, cs =>
    match scan fuel .value cs with
    | none => none
    | some r =>
      match skipSpace r with
      | ',' :: r2 => scan fuel .elems (skipSpace r2)
      | ']' :: r2 => some r2
      | _ => none
  | fuel + 1, .members, cs =>
    match cs with
    | '"' :: r =>
      match stringBody r [] with
      | none => none
      | some (_, r1) =>
        match skipSpace r1 with
        | ':' :: r2 =>
          match scan fuel .value (skipSpace r2) with
          | none => none
          | some r3 =>
            match skipSpace r3 with
            | ',' :: r4 => scan fuel .members (skipSpace r4)
            | '}' :: r4 => some r4
            | _ => none
        | _ => none
    | _ => none

/-- Steps that are enough to scan `cs`. -/
def fuelFor (cs : List Char) : Nat := 2 * cs.length + 2

/-- The text of the value at the head of `cs`, and what follows it. -/
def valueAt (cs : List Char) : Option (List Char × List Char) :=
  match scan (fuelFor cs) .value cs with
  | none => none
  | some r => some (cs.take (cs.length - r.length), r)

/-- `checkValid`: the text is one JSON value between optional white space. -/
def valid (cs : List Char) : Bool :=
  match valueAt (skipSpace cs) with
  | some (_, r) => (skipSpace r).isEmpty
  | none => false

/-- The elements of an array whose opening bracket has been read; the text is valid. -/
def items : Nat → List Char → List (List Char)
  | 0, _ => []
  | fuel + 1, cs =>
    match valueAt (skipSpace cs) with
    | none => []
    | some (v, r) =>
      match skipSpace r with
      | ',' :: r2 => v :: items fuel r2
      | _ => [v]

/-- The members of an object whose opening brace has been read; the text is valid. -/
def pairs : Nat → List Char → List (String × List Char)
  | 0, _ => []
  | fuel + 1, cs =>
    match skipSpace cs with
    | '"' :: r =>
      match stringBody r [] with
      | none => []
      | some (key, r1) =>
        match skipSpace r1 with
        | ':' :: r2 =>
          match valueAt (skipSpace r2) with
          | none => []
          | some (v, r3) =>
            match skipSpace r3 with
            | ',' :: r4 => (key, v) :: pairs fuel r4
            | _ => [(key, v)]
        | _ => []
    | _ => []

/-- Key folding of the decoder: ASCII letters to upper case, U+212A to `K`, U+017F to `S`. -/
def foldKey (key : String) : String :=
  String.mk (key.data.map fun c =>
    if c.toNat = 0x212A then 'K' else if c.toNat = 0x17F then 'S' else c.toUpper)

/-- `strconv.ParseInt(lit, 10, 64)` on a JSON number literal. -/
def parseInt (lit : List Char) : Option Int :=
  let (neg, ds) := match lit with
    | '-' :: r => (true, r)
    | r => (false, r)
  if ds.isEmpty ∨ ¬ ds.all Char.isDigit then none
  else
    let n : Nat := ds.foldl (fun a c => a * 10 + (c.toNat - '0'.toNat)) 0
    let v : Int := if neg then -(n : Int) else n
    if -2 ^ 63 ≤ v ∧ v < 2 ^ 63 then some v else none

/-- A string field set from the text of a value: `none` is a type error. -/
def stringField (old : String) (v : List Char) : Option String :=
  match v with
  | '"' :: r => (stringBody r []).map (·.1)
  | 'n' :: _ => some old
  | _ => none

/-- The decoder on one member of the object. -/
def setField (acc : Request × Bool) (kv : String × List Char) : Request × Bool :=
  let (req, bad) := acc
  let (key, v) := kv
  let k := foldKey key
  if k = "ID" then
    match v with
    | 'n' :: _ => (req, bad)
    | _ =>
      match parseInt v with
      | some n => ({ req with ID := n }, bad)
      | none => (req, true)
  else if k = "METHOD" then
    match stringField req.Method v with
    | some s => ({ req with Method := s }, bad)
    | none => (req, true)
  else if k = "PARAMS" then ({ req with Params := String.mk v }, bad)
  else if k = "RESULT" then ({ req with Result := String.mk v }, bad)
  else if k = "WORKER" then
    match stringField req.Worker v with
    | some s => ({ req with Worker := s }, bad)
    | none => (req, true)
  else (req, bad)

def syntaxError : GoError := "invalid character or unexpected end of JSON input"
def typeError : GoError := "json: cannot unmarshal value into Go value"

def unmarshalRequest (data : String) : Except GoError Request :=
  if valid data.data then
    match skipSpace data.data with
    | '{' :: r =>
      match (pairs (fuelFor r) r).foldl setField ({}, false) with
      | (req, false) => .ok req
      | (_, true) => .error typeError
    | 'n' :: _ => .ok {}
    | _ => .error typeError
  else .error syntaxError

def unmarshalSubmitParams (raw : RawMessage) : Except GoError NiceHashSubmitParams :=
  if valid raw.data then
    match skipSpace raw.data with
    | '[' :: r =>
      match skipSpace r with
      | ']' :: _ => .ok []
      | _ =>
        let decoded := (items (fuelFor r) r).map (stringField "")
        if decoded.all Option.isSome then .ok (decoded.map (·.getD "")) else .error typeError
    | 'n' :: _ => .ok []
    | _ => .error typeError
  else .error syntaxError

def anyOf (v : List Char) : GoAny :=
  match v with
  | '"' :: r =>
    match stringBody r [] with
    | some (s, _) => .string s
    | none => .other (String.mk v)
  | _ => .other (String.mk v)

def unmarshalNotifyParams (raw : RawMessage) : Except GoError NiceHashNotifyParams :=
  if valid raw.data then
    match skipSpace raw.data with
    | '[' :: r =>
      match skipSpace r with
      | ']' :: _ => .ok []
      | _ => .ok ((items (fuelFor r) r).map anyOf)
    | 'n' :: _ => .ok []
    | _ => .error typeError
  else .error syntaxError

def hexChar (n : Nat) : Char := Nat.digitChar n

/-- The escape `\u00XX` or longer for a rune below U+10000. -/
def uEscape (n : Nat) : List Char :=
  ['\\', 'u', hexChar (n / 4096 % 16), hexChar (n / 256 % 16), hexChar (n / 16 % 16),
    hexChar (n % 16)]

/-- The encoder on one rune inside a string. -/
def escapeChar (c : Char) : List Char :=
  if c = '"' then ['\\', '"']
  else if c = '\\' then ['\\', '\\']
  else if c = '\n' then ['\\', 'n']
  else if c = '\r' then ['\\', 'r']
  else if c = '\t' then ['\\', 't']
  else if c.toNat = 8 then ['\\', 'b']
  else if c.toNat = 12 then ['\\', 'f']
  else if c.toNat < 0x20 ∨ c = '<' ∨ c = '>' ∨ c = '&' ∨ c.toNat = 0x2028 ∨ c.toNat = 0x2029 then
    uEscape c.toNat
  else [c]

/-- The encoder on a Go string. -/
def quote (s : String) : List Char :=
  '"' :: (s.data.flatMap escapeChar ++ ['"'])

/-- `compact` on valid JSON text: white space outside strings goes, and the characters the
encoder escapes for HTML are escaped. -/
def compactValid : List Char → Bool → List Char
  | [], _ => []
  | '\\' :: c :: cs, true => '\\' :: c :: compactValid cs true
  | '"' :: cs, inString => '"' :: compactValid cs (!inString)
  | c :: cs, true =>
    if c = '<' ∨ c = '>' ∨ c = '&' ∨ c.toNat = 0x2028 ∨ c.toNat = 0x2029 then
      uEscape c.toNat ++ compactValid cs true
    else c :: compactValid cs true
  | c :: cs, false => if isSpace c then compactValid cs false else c :: compactValid cs false

/-- The encoder on a `json.RawMessage` field. -/
def compact (raw : RawMessage) : Option (List Char) :=
  if valid raw.data then some (compactValid raw.data false) else none

/-- One `omitempty` string field. -/
def stringMember (name : String) (s : String) : List Char :=
  if s = "" then [] else ',' :: (quote name ++ ':' :: quote s)

/-- One `omitempty` raw field: `none` when the raw text is not valid JSON. -/
def rawMember (name : String) (raw : RawMessage) : Option (List Char) :=
  if raw = "" then some []
  else (compact raw).map fun v => ',' :: (quote name ++ ':' :: v)

def marshalRequest (r : Request) : Except GoError String :=
  match rawMember "params" r.Params, rawMember "result" r.Result with
  | some params, some result =>
    .ok (String.mk (('{' :: (quote "id" ++ ':' :: (toString r.ID).data))
      ++ stringMember "method" r.Method ++ params ++ result
      ++ stringMember "worker" r.Worker ++ ['}']))
  | _, _ => .error "json: error calling MarshalJSON for type json.RawMessage"

def marshalStrings (l : List String) : RawMessage :=
  String.mk ('[' :: (((l.map quote).intersperse [',']).flatten) ++ [']'])

def marshalBool (b : Bool) : RawMessage := if b then "true" else "false"

end GoJson

/-- The reference codec. -/
def goJson : Json where
  unmarshalRequest := GoJson.unmarshalRequest
  marshalRequest := GoJson.marshalRequest
  unmarshalSubmitParams := GoJson.unmarshalSubmitParams
  unmarshalNotifyParams := GoJson.unmarshalNotifyParams
  marshalStrings := GoJson.marshalStrings
  marshalBool := GoJson.marshalBool

/-! ## A reference network and token table -/

/-- Split `scheme://host` at the first `://`. -/
def splitURL : List Char → List Char → Option (List Char × List Char)
  | [], _ => none
  | ':' :: '/' :: '/' :: host, acc => some (acc.reverse, host)
  | c :: cs, acc => splitURL cs (c :: acc)

/-- A network in which the hosts accepted by `up` can be dialed and no other. -/
def sampleNetwork (up : String → Bool) : Network where
  parse := fun rawURL =>
    match splitURL rawURL.data [] with
    | some (scheme, host) => .ok { Scheme := String.mk scheme, Host := String.mk host }
    | none => .ok { Scheme := "", Host := "" }
  tlsDial := fun host => if up host then .ok {} else .error "dial tcp: connection refused"
  netDial := fun host => if up host then .ok {} else .error "dial tcp: connection refused"

/-- A token table for running `New`. -/
def sampleToken : Token := { ETH := "ETH", ETC := "ETC", XMR := "XMR" }

/-! ## Sample sessions -/

/-- A session with all four connections healthy, inject configured, and the store holding
`job1` for inject and `job42` for develop. -/
def sampleSession : extractor where
  option := { Token := "ETH", Pool := "tcp://fee.example:4444", Wallet := "0xfee", Rename := "fee" }
  localConn := jsonrpcNew (some {})
  remoteConn := jsonrpcNew (some {})
  injectConn := jsonrpcNew (some {})
  developConn := jsonrpcNew (some {})
  injectWeight := 300
  developWeight := 30
  redisClient := { entries := [⟨"job1", JobInject, 60⟩, ⟨"job42", JobDevelop, 60⟩] }

/-- The sample session with a miner socket whose writes fail. -/
def brokenMinerSession : extractor :=
  { sampleSession with localConn := jsonrpcNew (some { writeErr := some "write: broken pipe" }) }

/-- A submit for `job1` from a miner that names its worker. -/
def submitJob1 : String :=
  "\x7b\"id\":7,\"method\":\"mining.submit\",\"params\":[\"user.w\",\"job1\",\"0xabc\"],\"worker\":\"rig1\"\x7d"

/-- A submit for `job42` from a miner that names its worker. -/
def submitJob42Worker : String :=
  "\x7b\"id\":7,\"method\":\"mining.submit\",\"params\":[\"user.w\",\"job42\",\"0xabc\"],\"worker\":\"rig1\"\x7d"

/-- The submit for `job42` of the scenario in the specification. -/
def submitJob42 : String :=
  "\x7b\"id\":7,\"method\":\"mining.submit\",\"params\":[\"user.w\",\"job42\",\"0xabc\"]\x7d"

/-- The `float64` of the literal `0.1`: `7205759403792794 * 2^-56`. -/
def weightTenth : float64 := .finite false 7205759403792794 (-56)

/-- The `float64` of the literal `0.03`: `8646911284551352 * 2^-58`, a little below
`3/100`. -/
def weightThreeHundredths : float64 := .finite false 8646911284551352 (-58)

/-- The `float64` of the literal `0.29`: `5224175567749775 * 2^-54`, a little below
`29/100`. -/
def weightTwentyNineHundredths : float64 := .finite false 5224175567749775 (-54)

/-- The `float64` of the literal `-0.5`: `-4503599627370496 * 2^-53`. -/
def weightMinusHalf : float64 := .finite true 4503599627370496 (-53)

/-- The session `New` builds for the fee fraction `0.1` with no inject pool, on a network
where every host can be dialed. -/
def builtSession : extractor where
  option := { Token := "ETH", Weight := weightTenth }
  localConn := jsonrpcNew (some {})
  remoteConn := some ⟨some {}⟩
  injectConn := none
  developConn := some ⟨some {}⟩
  injectWeight := newInjectWeight weightTenth
  developWeight := newDevelopWeight
  redisClient := {}

/-- A job notification for `jobA`. -/
def notifyJobA : String :=
  "\x7b\"id\":null,\"method\":\"mining.notify\",\"params\":[\"jobA\",\"0xseed\",\"0xheader\",true]\x7d"

/-- A job notification whose parameter list is empty. -/
def notifyNoParams : String :=
  "\x7b\"id\":null,\"method\":\"mining.notify\",\"params\":[]\x7d"

/-- The read deadline the specification asks for: the clock plus the configured timeout in
seconds, or plus 3 seconds when the configured timeout is 0. -/
def expectedDeadline (now timeout : Int) : Int :=
  if timeout = 0 then now + 3 else now + timeout

/-- The sample session with a configured read timeout of 5 seconds. -/
def timeoutSession : extractor :=
  { sampleSession with option := { sampleSession.option with Timeout := 5 } }

/-! ## Lemmas on calls and connections -/

@[simp] theorem liftErr_ok {α : Type} (a : α) : liftErr (.ok a) = .ok a := rfl

@[simp] theorem liftErr_error {α : Type} (err : GoError) :
    (liftErr (.error err) : Except Fault α) = .error (.error err) := rfl

namespace Exec

variable {σ α β : Type}

@[simp] theorem bind_apply (m : Exec σ α) (f : α → Exec σ β) (s : σ) :
    (m >>= f) s = match (m s).1 with
      | .ok a => f a (m s).2
      | .error x => (.error x, (m s).2) := rfl

@[simp] theorem pure_apply (a : α) (s : σ) : (pure a : Exec σ α) s = (.ok a, s) := rfl

@[simp] theorem get_apply (s : σ) : (Exec.get : Exec σ σ) s = (.ok s, s) := rfl

@[simp] theorem check_apply (r : Except GoError α) (s : σ) :
    (Exec.check r : Exec σ α) s = (liftErr r, s) := rfl

@[simp] theorem fail_apply (x : Fault) (s : σ) : (Exec.fail x : Exec σ α) s = (.error x, s) := rfl

@[simp] theorem returnErr_apply (err : GoError) (s : σ) :
    (Exec.returnErr err : Exec σ α) s = (.error (.error err), s) := rfl

end Exec

namespace Conn

theorem write_of_writable (c : Conn) (b : String) (h : c.writable = true) :
    c.Write b = (.ok (b ++ "\n").utf8ByteSize, c.push (b ++ "\n")) := by
  match c, h with
  | some ⟨some nc⟩, h =>
    simp [Conn.writable] at h
    obtain ⟨h1, h2⟩ := h
    simp [Conn.Write, Conn.call, conn.Write, NetConn.Write, h1, h2, liftErr, Conn.push]

theorem sent_push (c : Conn) (s : String) (h : c.live = true) :
    (c.push s).sent = c.sent ++ s := by
  match c, h with
  | some ⟨some nc⟩, _ => rfl

theorem live_of_writable (c : Conn) (h : c.writable = true) : c.live = true := by
  match c, h with
  | some ⟨some nc⟩, _ => rfl

end Conn

namespace extractor

theorem inject_ok (e : extractor) (data : String) (hl : e.locker = false)
    (hw : e.localConn.writable = true) :
    inject data e = (.ok (), { e with localConn := e.localConn.push (data ++ "\n") }) := by
  simp [inject, Lock, hl, onLocal, Unlock, Conn.write_of_writable _ _ hw]

/-- C1.  A submit whose job id the store labels `inject`, handled with the inject and miner
connections writable, the write lock free, and `json.Marshal` succeeding on the rewritten
request and on the response: `handleSubmit` returns nil; the inject
upstream receives one message, the encoding of the request with its id, method, params and
result kept and its worker replaced by the configured rename if it was non-empty; the miner
receives the encoding of a response with the request's id and result `true`; origin,
develop, the store and the lock are as before. -/
theorem handleSubmit_inject (J : Json) (e : extractor) (id data : String) (request : Request)
    (injectData responseData : String)
    (hlabel : e.redisClient.Get id = JobInject)
    (hreq : J.unmarshalRequest data = .ok request)
    (hinj : J.marshalRequest
      (if request.Worker ≠ "" then { request with Worker := e.option.Rename } else request)
        = .ok injectData)
    (hresp : J.marshalRequest { ID := request.ID, Result := J.marshalBool true }
        = .ok responseData)
    (hwi : e.injectConn.writable = true) (hwl : e.localConn.writable = true)
    (hlock : e.locker = false) :
    handleSubmit J id data e =
      (.ok (), { e with
        injectConn := e.injectConn.push (injectData ++ "\n")
        localConn := e.localConn.push (responseData ++ "\n") }) := by
  by_cases hw : request.Worker = ""
  · simp [hw] at hinj
    simp [handleSubmit, hlabel, hreq, hw, hinj, hresp, onInject,
      Conn.write_of_writable _ _ hwi]
    exact inject_ok _ _ hlock hwl
  · simp [hw] at hinj
    simp [handleSubmit, hlabel, hreq, hw, hinj, hresp, onInject,
      Conn.write_of_writable _ _ hwi]
    exact inject_ok _ _ hlock hwl

/-- C1, at a concrete submit: `job1` is labelled inject, the miner's worker is `rig1` and the
configured rename is `fee`. -/
theorem handleSubmit_inject_witness :
    sampleSession.redisClient.Get "job1" = JobInject ∧
    goJson.unmarshalRequest submitJob1 = .ok
      { ID := 7, Method := "mining.submit", Params := "[\"user.w\",\"job1\",\"0xabc\"]",
        Worker := "rig1" } ∧
    handleSubmit goJson "job1" submitJob1 sampleSession =
      (.ok (), { sampleSession with
        injectConn := sampleSession.injectConn.push
          ("\x7b\"id\":7,\"method\":\"mining.submit\",\"params\":[\"user.w\",\"job1\",\"0xabc\"],\"worker\":\"fee\"\x7d" ++ "\n")
        localConn := sampleSession.localConn.push ("\x7b\"id\":7,\"result\":true\x7d" ++ "\n") }) :=
  ⟨by decide, by decide,
    handleSubmit_inject goJson sampleSession "job1" submitJob1
      { ID := 7, Method := "mining.submit", Params := "[\"user.w\",\"job1\",\"0xabc\"]",
        Worker := "rig1" } _ _
      (by decide) (by decide) (by decide) (by decide) (by decide) (by decide) (by decide)⟩

/-- C2 as stated fails on the scenario of the specification: `job42` is labelled develop and
the miner submits without a worker field; the develop upstream receives the submit as it
came, and the worker of what it receives is empty, not `sponsors`.  The miner does receive
the success response. -/
theorem handleSubmit_develop_worker_counterexample :
    sampleSession.redisClient.Get "job42" = JobDevelop ∧
    (handleSubmit goJson "job42" submitJob42 sampleSession).1 = .ok () ∧
    (handleSubmit goJson "job42" submitJob42 sampleSession).2.developConn.sent
      = submitJob42 ++ "\n" ∧
    goJson.unmarshalRequest submitJob42 = .ok
      { ID := 7, Method := "mining.submit", Params := "[\"user.w\",\"job42\",\"0xabc\"]",
        Worker := "" } ∧
    (handleSubmit goJson "job42" submitJob42 sampleSession).2.localConn.sent
      = "\x7b\"id\":7,\"result\":true\x7d\n" := by
  decide

/-- C2, amended.  A submit whose job id the store labels `develop`, handled with the develop
and miner connections writable, the write lock free, and `json.Marshal` succeeding on the
rewritten request and on the response: `handleSubmit` returns nil; the
develop upstream receives one message, the encoding of the request with its worker replaced
by `sponsors` if it was non-empty and left empty otherwise; the miner receives the encoding
of a response with the request's id and result `true`; nothing else changes. -/
theorem handleSubmit_develop (J : Json) (e : extractor) (id data : String) (request : Request)
    (developData responseData : String)
    (hlabel : e.redisClient.Get id = JobDevelop)
    (hreq : J.unmarshalRequest data = .ok request)
    (hdev : J.marshalRequest
      (if request.Worker ≠ "" then { request with Worker := "sponsors" } else request)
        = .ok developData)
    (hresp : J.marshalRequest { ID := request.ID, Result := J.marshalBool true }
        = .ok responseData)
    (hwd : e.developConn.writable = true) (hwl : e.localConn.writable = true)
    (hlock : e.locker = false) :
    handleSubmit J id data e =
      (.ok (), { e with
        developConn := e.developConn.push (developData ++ "\n")
        localConn := e.localConn.push (responseData ++ "\n") }) := by
  have hne : JobDevelop ≠ JobInject := by decide
  by_cases hw : request.Worker = ""
  · simp [hw] at hdev
    simp [handleSubmit, hlabel, hne, hreq, hw, hdev, hresp, onDevelop,
      Conn.write_of_writable _ _ hwd]
    exact inject_ok _ _ hlock hwl
  · simp [hw] at hdev
    simp [handleSubmit, hlabel, hne, hreq, hw, hdev, hresp, onDevelop,
      Conn.write_of_writable _ _ hwd]
    exact inject_ok _ _ hlock hwl

/-- C2 amended, at a concrete submit: `job42` is labelled develop and the miner's worker is
`rig1`; develop receives the submit with worker `sponsors`, the miner the success response
with id 7. -/
theorem handleSubmit_develop_witness :
    sampleSession.redisClient.Get "job42" = JobDevelop ∧
    goJson.unmarshalRequest submitJob42Worker = .ok
      { ID := 7, Method := "mining.submit", Params := "[\"user.w\",\"job42\",\"0xabc\"]",
        Worker := "rig1" } ∧
    handleSubmit goJson "job42" submitJob42Worker sampleSession =
      (.ok (), { sampleSession with
        developConn := sampleSession.developConn.push
          ("\x7b\"id\":7,\"method\":\"mining.submit\",\"params\":[\"user.w\",\"job42\",\"0xabc\"],\"worker\":\"sponsors\"\x7d" ++ "\n")
        localConn := sampleSession.localConn.push ("\x7b\"id\":7,\"result\":true\x7d" ++ "\n") }) :=
  ⟨by decide, by decide,
    handleSubmit_develop goJson sampleSession "job42" submitJob42Worker
      { ID := 7, Method := "mining.submit", Params := "[\"user.w\",\"job42\",\"0xabc\"]",
        Worker := "rig1" } _ _
      (by decide) (by decide) (by decide) (by decide) (by decide) (by decide) (by decide)⟩

theorem redis_get_of_find_none (r : Redis) (key : String) (h : r.find key = none) :
    r.Get key = "" := by
  unfold Redis.Get
  cases r.down <;> simp [h]

/-- C3.  A submit whose job id has no entry in the store (never recorded, or expired),
handled with the origin connection writable: `handleSubmit` returns nil, origin receives the
bytes of the line followed by the line terminator, and the inject connection, the develop
connection, the miner connection, the store and the lock are as before. -/
theorem handleSubmit_absent (J : Json) (e : extractor) (id data : String)
    (habsent : e.redisClient.find id = none)
    (hwr : e.remoteConn.writable = true) :
    handleSubmit J id data e =
      (.ok (), { e with remoteConn := e.remoteConn.push (data ++ "\n") }) := by
  have h1 : ("" : String) ≠ JobInject := by decide
  have h2 : ("" : String) ≠ JobDevelop := by decide
  simp [handleSubmit, redis_get_of_find_none _ _ habsent, h1, h2, onRemote,
    Conn.write_of_writable _ _ hwr]

/-- C3, at a concrete submit: `job1` was recorded with 60 seconds to live and the submit
comes after those 60 seconds. -/
theorem handleSubmit_absent_witness :
    (sampleSession.redisClient.elapse 60).find "job1" = none ∧
    handleSubmit goJson "job1" submitJob1
        { sampleSession with redisClient := sampleSession.redisClient.elapse 60 } =
      (.ok (), { sampleSession with
        redisClient := sampleSession.redisClient.elapse 60
        remoteConn := sampleSession.remoteConn.push (submitJob1 ++ "\n") }) :=
  ⟨by decide, handleSubmit_absent goJson _ "job1" submitJob1 (by decide) (by decide)⟩

end extractor

namespace Conn

theorem sent_deadline (c : Conn) (now t : Int) :
    (c.SetReadDeadlineBySecond now t).2.sent = c.sent := by
  match c with
  | none => rfl
  | some ⟨none⟩ => rfl
  | some ⟨some nc⟩ =>
    simp only [Conn.SetReadDeadlineBySecond, Conn.call, conn.SetReadDeadlineBySecond,
      conn.SetReadDeadline, NetConn.SetReadDeadline]
    split <;> rfl

theorem writable_deadline (c : Conn) (now t : Int) :
    (c.SetReadDeadlineBySecond now t).2.writable = c.writable := by
  match c with
  | none => rfl
  | some ⟨none⟩ => rfl
  | some ⟨some nc⟩ =>
    simp only [Conn.SetReadDeadlineBySecond, Conn.call, conn.SetReadDeadlineBySecond,
      conn.SetReadDeadline, NetConn.SetReadDeadline]
    split <;> rfl

theorem deadline_of_live (c : Conn) (now t : Int) (h : c.live = true) :
    (∃ err, (c.SetReadDeadlineBySecond now t).1 = .error (.error err)) ∨
      (c.SetReadDeadlineBySecond now t).1 = .ok () := by
  match c, h with
  | some ⟨some nc⟩, _ =>
    simp only [Conn.SetReadDeadlineBySecond, Conn.call, conn.SetReadDeadlineBySecond,
      conn.SetReadDeadline, NetConn.SetReadDeadline]
    split
    · exact Or.inl ⟨_, rfl⟩
    · exact Or.inr rfl

end Conn

namespace extractor

theorem ignoreErr_deadline (e : extractor) (now t : Int) (h : e.developConn.live = true) :
    Exec.ignoreErr (onDevelop (Conn.SetReadDeadlineBySecond · now t)) e =
      (.ok (), { e with developConn := (e.developConn.SetReadDeadlineBySecond now t).2 }) := by
  rcases Conn.deadline_of_live e.developConn now t h with ⟨err, h1⟩ | h1 <;>
    simp [Exec.ignoreErr, onDevelop, h1]

theorem afterRead_ok (rd : ReadLine) (e : extractor)
    (hread : rd.err = none ∨ rd.data ≠ "") (hfull : rd.isPrefix = false) :
    afterRead rd e = (.ok (), e) := by
  unfold afterRead
  rcases hread with h | h
  · simp [h, hfull]
  · cases rd.err <;> simp [h, hfull]

/-- C4.  One iteration of the inbound pump on a line that decodes to a request whose method is
not `mining.submit` (subscribe, authorize, any other method, or none), with the origin
connection writable and the develop connection holding a socket (the iteration starts by
setting its read deadline): origin receives exactly the bytes of the line followed by one
line terminator, whatever happens to the later writes of the iteration.  When the method is
neither subscribe nor authorize, the iteration returns nil, and the inject connection, the
bytes received by develop and the miner connection are as before. -/
theorem handleInboundStep_passthrough (J : Json) (T : Token) (now : Int) (rd : ReadLine)
    (e : extractor) (request : Request)
    (hdev : e.developConn.live = true)
    (hread : rd.err = none ∨ rd.data ≠ "") (hfull : rd.isPrefix = false)
    (hreq : J.unmarshalRequest rd.data = .ok request)
    (hm : request.Method ≠ MethodNiceHashSubmit)
    (hwr : e.remoteConn.writable = true) :
    (handleInboundStep J T now rd e).2.remoteConn.sent
        = e.remoteConn.sent ++ rd.data ++ "\n" ∧
      (request.Method ≠ MethodNiceHashSubscribe → request.Method ≠ MethodNiceHashAuthorize →
        (handleInboundStep J T now rd e).1 = .ok () ∧
        (handleInboundStep J T now rd e).2.injectConn = e.injectConn ∧
        (handleInboundStep J T now rd e).2.developConn.sent = e.developConn.sent ∧
        (handleInboundStep J T now rd e).2.localConn = e.localConn) := by
  have hlive := Conn.live_of_writable _ hwr
  have hsent := Conn.sent_push e.remoteConn (rd.data ++ "\n") hlive
  constructor
  · by_cases h1 : request.Method = MethodNiceHashSubscribe
    · simp [handleInboundStep, ignoreErr_deadline _ _ _ hdev, afterRead_ok _ _ hread hfull, hreq,
        h1, onRemote, Conn.write_of_writable _ _ hwr]
      split <;> simp [onInject, onDevelop] <;> (repeat' split) <;>
        simp_all [String.append_assoc]
    · by_cases h2 : request.Method = MethodNiceHashAuthorize
      · have h21 : MethodNiceHashAuthorize ≠ MethodNiceHashSubscribe := by decide
        simp [handleInboundStep, ignoreErr_deadline _ _ _ hdev, afterRead_ok _ _ hread hfull,
          hreq, h2, h21, onRemote, Conn.write_of_writable _ _ hwr]
        split <;> simp [onInject, onDevelop] <;> (repeat' split) <;>
          simp_all [String.append_assoc]
      · simp [handleInboundStep, ignoreErr_deadline _ _ _ hdev, afterRead_ok _ _ hread hfull,
          hreq, h1, h2, hm, onRemote, Conn.write_of_writable _ _ hwr, hsent,
          String.append_assoc]
  · intro h1 h2
    simp [handleInboundStep, ignoreErr_deadline _ _ _ hdev, afterRead_ok _ _ hread hfull,
      hreq, h1, h2, hm, onRemote, Conn.write_of_writable _ _ hwr, Conn.sent_deadline]


/-- C4, at a concrete line with a method the engine does not know. -/
theorem handleInboundStep_passthrough_witness :
    sampleSession.developConn.live = true ∧
    goJson.unmarshalRequest "\x7b\"id\":3,\"method\":\"mining.extranonce.subscribe\",\"params\":[]\x7d"
      = .ok { ID := 3, Method := "mining.extranonce.subscribe", Params := "[]" } ∧
    sampleSession.remoteConn.writable = true ∧
    (handleInboundStep goJson sampleToken 100
        { data := "\x7b\"id\":3,\"method\":\"mining.extranonce.subscribe\",\"params\":[]\x7d" }
        sampleSession).2.remoteConn.sent
      = sampleSession.remoteConn.sent
        ++ "\x7b\"id\":3,\"method\":\"mining.extranonce.subscribe\",\"params\":[]\x7d" ++ "\n" :=
  ⟨by decide, by decide, by decide,
    (handleInboundStep_passthrough goJson sampleToken 100
      { data := "\x7b\"id\":3,\"method\":\"mining.extranonce.subscribe\",\"params\":[]\x7d" }
      sampleSession { ID := 3, Method := "mining.extranonce.subscribe", Params := "[]" }
      (by decide) (by decide) (by decide) (by decide) (by decide) (by decide)).1⟩


/-- C5.  One iteration of the inbound pump on a `mining.authorize` request, whatever its
params, with origin and develop writable and inject writable when it is configured: the
iteration returns nil; origin receives the line as it came; if inject is configured it
receives the request with its params replaced by the encoding of
`[wallet ++ "." ++ rename, "x"]`; develop receives the request with its params replaced by
the encoding of `[w ++ ".sponsors", "x"]`, where `w` is the fixed Ethereum wallet for ETH
and ETC and the fixed Monero wallet for XMR.  Both rebuilt requests keep the id, method,
result and worker of the original. -/
theorem handleInboundStep_authorize (J : Json) (T : Token) (now : Int) (rd : ReadLine)
    (e : extractor) (request : Request) (injectData developData : String)
    (hread : rd.err = none ∨ rd.data ≠ "") (hfull : rd.isPrefix = false)
    (hreq : J.unmarshalRequest rd.data = .ok request)
    (hm : request.Method = MethodNiceHashAuthorize)
    (hwr : e.remoteConn.writable = true)
    (hwi : e.injectConn.isSome = true → e.injectConn.writable = true)
    (hwd : e.developConn.writable = true)
    (hmi : e.injectConn.isSome = true → J.marshalRequest
      { request with Params := J.marshalStrings [e.option.Wallet ++ "." ++ e.option.Rename, "x"] }
        = .ok injectData)
    (hmd : J.marshalRequest
      { request with Params := J.marshalStrings [developWalletOf T e.option ++ ".sponsors", "x"] }
        = .ok developData) :
    handleInboundStep J T now rd e =
      (.ok (), { e with
        remoteConn := e.remoteConn.push (rd.data ++ "\n")
        injectConn := e.injectConn.push (injectData ++ "\n")
        developConn := (e.developConn.SetReadDeadlineBySecond now e.option.Timeout).2.push
          (developData ++ "\n") }) ∧
      (e.option.Token = T.ETH ∨ e.option.Token = T.ETC →
        developWalletOf T e.option = defaultDevelopWalletEthereum) ∧
      (e.option.Token = T.XMR → T.XMR ≠ T.ETH → T.XMR ≠ T.ETC →
        developWalletOf T e.option = defaultDevelopWalletMonero) := by
  have hdev := Conn.live_of_writable _ hwd
  have h21 : MethodNiceHashAuthorize ≠ MethodNiceHashSubscribe := by decide
  have hwd2 : (e.developConn.SetReadDeadlineBySecond now e.option.Timeout).2.writable = true := by
    rw [Conn.writable_deadline]; exact hwd
  refine ⟨?_, ?_, ?_⟩
  · have hs : ∀ w : String, w ++ ("." ++ "sponsors") = w ++ ".sponsors" := fun _ => rfl
    simp only [hm, String.append_assoc] at hmd hmi
    cases hi : e.injectConn with
    | none =>
      have hp : ∀ s, Conn.push none s = none := fun _ => rfl
      simp [handleInboundStep, ignoreErr_deadline _ _ _ hdev, afterRead_ok _ _ hread hfull,
          hreq, hm, h21, onRemote, Conn.write_of_writable _ _ hwr, hi, hmd, onDevelop,
          Conn.write_of_writable _ _ hwd2, hp, hs, String.append_assoc]
    | some c =>
      have hwi2 : Conn.writable (some c) = true := by simpa [hi] using hwi
      have hmi2 := hmi (by simp [hi])
      simp [handleInboundStep, ignoreErr_deadline _ _ _ hdev, afterRead_ok _ _ hread hfull,
          hreq, hm, h21, onRemote, Conn.write_of_writable _ _ hwr, hi, hmd, onDevelop,
          Conn.write_of_writable _ _ hwd2, onInject, hmi2, Conn.write_of_writable _ _ hwi2,
          hs, String.append_assoc]
  · intro h
    simp [developWalletOf, h]
  · intro h h1 h2
    simp [developWalletOf, h, h1, h2]


/-- C5, at a concrete authorize of a miner with its own wallet and password. -/
theorem handleInboundStep_authorize_witness :
    goJson.unmarshalRequest "\x7b\"id\":2,\"method\":\"mining.authorize\",\"params\":[\"0xminer.rig1\",\"pw\"]\x7d"
      = .ok { ID := 2, Method := "mining.authorize", Params := "[\"0xminer.rig1\",\"pw\"]" } ∧
    handleInboundStep goJson sampleToken 100
        { data := "\x7b\"id\":2,\"method\":\"mining.authorize\",\"params\":[\"0xminer.rig1\",\"pw\"]\x7d" }
        sampleSession =
      (.ok (), { sampleSession with
        remoteConn := sampleSession.remoteConn.push
          ("\x7b\"id\":2,\"method\":\"mining.authorize\",\"params\":[\"0xminer.rig1\",\"pw\"]\x7d" ++ "\n")
        injectConn := sampleSession.injectConn.push
          ("\x7b\"id\":2,\"method\":\"mining.authorize\",\"params\":[\"0xfee.fee\",\"x\"]\x7d" ++ "\n")
        developConn :=
          (sampleSession.developConn.SetReadDeadlineBySecond 100 sampleSession.option.Timeout).2.push
            ("\x7b\"id\":2,\"method\":\"mining.authorize\",\"params\":[\"0x000000A52a03835517E9d193B3c27626e1Bc96b1.sponsors\",\"x\"]\x7d" ++ "\n") }) :=
  ⟨by decide,
    (handleInboundStep_authorize goJson sampleToken 100
      { data := "\x7b\"id\":2,\"method\":\"mining.authorize\",\"params\":[\"0xminer.rig1\",\"pw\"]\x7d" }
      sampleSession { ID := 2, Method := "mining.authorize", Params := "[\"0xminer.rig1\",\"pw\"]" }
      _ _ (by decide) (by decide) (by decide) (by decide) (by decide) (by decide) (by decide)
      (by decide) (by decide)).1⟩

end extractor

/-! ## Session construction: the weights -/

theorem bitLenAux_zero (fuel : Nat) : bitLenAux fuel 0 = 0 := by
  cases fuel <;> simp [bitLenAux]

theorem bitLenAux_spec (fuel : Nat) : ∀ n, n ≤ fuel →
    n < 2 ^ bitLenAux fuel n ∧ (n ≠ 0 → 2 ^ bitLenAux fuel n ≤ 2 * n) := by
  induction fuel with
  | zero =>
    intro n h
    have : n = 0 := by omega
    subst this
    simp [bitLenAux]
  | succ k ih =>
    intro n h
    by_cases hn : n = 0
    · subst hn
      simp [bitLenAux]
    · have h2 : n / 2 ≤ k := by omega
      obtain ⟨h3, h4⟩ := ih (n / 2) h2
      simp only [bitLenAux, if_neg hn, pow_succ]
      refine ⟨by omega, fun _ => ?_⟩
      by_cases h5 : n / 2 = 0
      · rw [h5, bitLenAux_zero]
        simp
        omega
      · have := h4 h5
        omega

theorem bitLen_lt (n : Nat) : n < 2 ^ bitLen n := (bitLenAux_spec n n le_rfl).1

theorem bitLen_le (n : Nat) (h : n ≠ 0) : 2 ^ bitLen n ≤ 2 * n := (bitLenAux_spec n n le_rfl).2 h

/-- The significand kept by `float64.round` is within one half of the exact quotient. -/
theorem round_nearest (M s : Nat) (hs : 0 < s) (r : Nat)
    (hr : r = if 2 ^ (s - 1) < M % 2 ^ s ∨ (M % 2 ^ s = 2 ^ (s - 1) ∧ M / 2 ^ s % 2 = 1)
      then M / 2 ^ s + 1 else M / 2 ^ s) :
    2 * (r * 2 ^ s) ≤ 2 * M + 2 ^ s ∧ 2 * M ≤ 2 * (r * 2 ^ s) + 2 ^ s := by
  obtain ⟨t, rfl⟩ : ∃ t, s = t + 1 := ⟨s - 1, by omega⟩
  have h1 : 2 ^ (t + 1) * (M / 2 ^ (t + 1)) + M % 2 ^ (t + 1) = M := Nat.div_add_mod M _
  have h2 : M % 2 ^ (t + 1) < 2 ^ (t + 1) := Nat.mod_lt _ (by positivity)
  simp only [Nat.add_sub_cancel] at hr
  generalize M / 2 ^ (t + 1) = hi at *
  generalize M % 2 ^ (t + 1) = lo at *
  have h3 : 2 ^ (t + 1) = 2 * 2 ^ t := by rw [pow_succ]; ring
  rw [h3] at h1 h2 ⊢
  generalize 2 ^ t = P at *
  split at hr
  · rename_i hc
    subst hr
    have : P ≤ lo := by rcases hc with hc | hc <;> omega
    constructor <;> nlinarith
  · rename_i hc
    subst hr
    have : lo ≤ P := by
      by_contra hlt
      exact hc (Or.inl (by omega))
    constructor <;> nlinarith

theorem bitLen_zero : bitLen 0 = 0 := rfl

theorem natCast_le_mul_zpow_neg (a b n : Nat) :
    (a : ℚ) ≤ (b : ℚ) * 2 ^ (-(n : Int)) ↔ a * 2 ^ n ≤ b := by
  rw [zpow_neg, zpow_natCast, ← div_eq_mul_inv, le_div_iff₀ (by positivity)]
  exact_mod_cast Iff.rfl

theorem mul_zpow_neg_le_natCast (a b n : Nat) :
    (b : ℚ) * 2 ^ (-(n : Int)) ≤ (a : ℚ) ↔ b ≤ a * 2 ^ n := by
  rw [zpow_neg, zpow_natCast, ← div_eq_mul_inv, div_le_iff₀ (by positivity)]
  exact_mod_cast Iff.rfl

theorem mul_zpow_neg_lt_natCast (a b n : Nat) :
    (b : ℚ) * 2 ^ (-(n : Int)) < (a : ℚ) ↔ b < a * 2 ^ n := by
  rw [zpow_neg, zpow_natCast, ← div_eq_mul_inv, div_lt_iff₀ (by positivity)]
  exact_mod_cast Iff.rfl

namespace float64

/-- The two ways `round` returns for a number other than zero: the number itself when it has
at most 53 digits above the least exponent, else a significand `r` within one half of the
exact quotient by `2^s`. -/
theorem round_spec (neg : Bool) (M : Nat) (E : Int) (hM : M ≠ 0) :
    (max (E + bitLen M - 53) (-1074) ≤ E ∧
      round neg M E = if 1024 < E + bitLen M then inf neg else finite neg M E) ∨
    (∃ s r : Nat, ∃ q : Int, 0 < s ∧ q = max (E + bitLen M - 53) (-1074) ∧ q = E + s ∧
      M / 2 ^ s ≤ r ∧ 2 * (r * 2 ^ s) ≤ 2 * M + 2 ^ s ∧ 2 * M ≤ 2 * (r * 2 ^ s) + 2 ^ s ∧
      round neg M E = if 1024 < q + bitLen r then inf neg else finite neg r q) := by
  by_cases hq : max (E + bitLen M - 53) (-1074) ≤ E
  · left
    refine ⟨hq, ?_⟩
    simp only [round, if_neg hM, if_pos hq]
  · right
    have hs : 0 < (max (E + bitLen M - 53) (-1074) - E).toNat := by
      apply Int.lt_toNat.mpr
      push_neg at hq
      simpa using hq
    obtain ⟨h1, h2⟩ := round_nearest M _ hs _ rfl
    refine ⟨_, _, max (E + bitLen M - 53) (-1074), hs, rfl, ?_, ?_, h1, h2, ?_⟩
    · rw [Int.toNat_of_nonneg (by push_neg at hq; omega)]
      ring
    · split <;> omega
    · simp only [round, if_neg hM, if_neg hq]

end float64

namespace float64

/-- Rounding does not go below an integer of at most 53 digits that the number is not
below. -/
theorem round_ge (M : Nat) (E : Int) (N : Nat) (hN : N ≤ 2 ^ 53)
    (h : (N : ℚ) ≤ (M : ℚ) * 2 ^ E) :
    round false M E = inf false ∨
      ∃ r q, round false M E = finite false r q ∧ (N : ℚ) ≤ (r : ℚ) * 2 ^ q := by
  by_cases hM : M = 0
  · subst hM
    right
    refine ⟨0, 0, by simp [round], ?_⟩
    simpa using h
  rcases round_spec false M E hM with ⟨-, hr⟩ | ⟨s, r, q, hs, hq, hqE, hhi, h1, h2, hr⟩
  · rw [hr]
    split
    · left; rfl
    · right; exact ⟨M, E, rfl, h⟩
  · rw [hr]
    split
    · left; rfl
    · right
      refine ⟨r, q, rfl, ?_⟩
      rcases le_or_lt q 0 with hq0 | hq0
      · obtain ⟨k, hk⟩ : ∃ k : Nat, q = -(k : Int) := ⟨(-q).toNat, by omega⟩
        have hE : E = -((k + s : Nat) : Int) := by push_cast; omega
        rw [hE, natCast_le_mul_zpow_neg] at h
        rw [hk, natCast_le_mul_zpow_neg]
        by_contra hlt
        push_neg at hlt
        have h3 : (r + 1) * 2 ^ s ≤ N * 2 ^ k * 2 ^ s := Nat.mul_le_mul_right _ hlt
        rw [pow_add, ← mul_assoc] at h
        have h4 : 0 < 2 ^ s := by positivity
        nlinarith
      · have hb : (bitLen M : Int) = s + 53 := by omega
        have hb2 : bitLen M = s + 53 := by exact_mod_cast hb
        have h5 := bitLen_le M hM
        rw [hb2, pow_add] at h5
        have h6 : 2 ^ 52 ≤ M / 2 ^ s := by
          rw [Nat.le_div_iff_mul_le (by positivity)]
          omega
        have h7 : 2 ^ 52 ≤ r := le_trans h6 hhi
        have h8 : (2 : ℚ) ≤ 2 ^ q := by
          have : (2 : ℚ) ^ (1 : Int) ≤ 2 ^ q := zpow_le_zpow_right₀ (by norm_num) (by omega)
          simpa using this
        calc (N : ℚ) ≤ 2 ^ 53 := by exact_mod_cast hN
          _ = 2 ^ 52 * 2 := by norm_num
          _ ≤ (r : ℚ) * 2 ^ q := by
            apply mul_le_mul _ h8 (by norm_num) (by positivity)
            exact_mod_cast h7

end float64

namespace float64

/-- Rounding does not go above an integer of at most 53 digits that the number is not
above, and does not overflow there. -/
theorem round_le (M : Nat) (E : Int) (N : Nat) (hN : N < 2 ^ 53)
    (h : (M : ℚ) * 2 ^ E ≤ (N : ℚ)) :
    ∃ r q, round false M E = finite false r q ∧ (r : ℚ) * 2 ^ q ≤ (N : ℚ) := by
  by_cases hM : M = 0
  · subst hM
    exact ⟨0, 0, by simp [round], by simp⟩
  have hNq : (N : ℚ) < 2 ^ 53 := by exact_mod_cast hN
  have hlow : (2 : ℚ) ^ (E + bitLen M - 1) ≤ (M : ℚ) * 2 ^ E := by
    have h5 := bitLen_le M hM
    have h5q : (2 : ℚ) ^ (bitLen M) ≤ 2 * M := by exact_mod_cast h5
    have h6 : (2 : ℚ) ^ (E + bitLen M - 1) = 2 ^ E * 2 ^ (bitLen M) / 2 := by
      rw [zpow_sub₀ (by norm_num), zpow_add₀ (by norm_num), zpow_natCast]
      simp
    rw [h6]
    have hE : (0 : ℚ) < 2 ^ E := by positivity
    rw [div_le_iff₀ (by norm_num)]
    nlinarith
  have hexp : E + bitLen M - 1 < 53 := by
    by_contra hc
    push_neg at hc
    have h7 : (2 : ℚ) ^ (53 : Int) ≤ 2 ^ (E + bitLen M - 1) :=
      zpow_le_zpow_right₀ (by norm_num) hc
    have h53 : (2 : ℚ) ^ (53 : Int) = 2 ^ 53 := by norm_num
    linarith
  rcases round_spec false M E hM with ⟨-, hr⟩ | ⟨s, r, q, hs, hq, hqE, hhi, h1, h2, hr⟩
  · rw [hr, if_neg (by omega)]
    exact ⟨M, E, rfl, h⟩
  · have hq0 : q ≤ 0 := by
      rw [hq]
      apply max_le <;> omega
    obtain ⟨k, hk⟩ : ∃ k : Nat, q = -(k : Int) := ⟨(-q).toNat, by omega⟩
    have hE : E = -((k + s : Nat) : Int) := by push_cast; omega
    rw [hE, mul_zpow_neg_le_natCast, pow_add, ← mul_assoc] at h
    have h4 : 0 < 2 ^ s := by positivity
    have hrN : r ≤ N * 2 ^ k := by
      by_contra hlt
      push_neg at hlt
      have h3 : (N * 2 ^ k + 1) * 2 ^ s ≤ r * 2 ^ s := Nat.mul_le_mul_right _ hlt
      nlinarith
    have hov : ¬ 1024 < q + bitLen r := by
      by_cases hr0 : r = 0
      · subst hr0
        rw [bitLen_zero]
        omega
      · have h7 := bitLen_le r hr0
        have h8 : 2 ^ bitLen r < 2 ^ (54 + k) := by
          have h9 : N * 2 ^ k < 2 ^ 53 * 2 ^ k := Nat.mul_lt_mul_of_pos_right hN (by positivity)
          have h10 : 2 ^ (54 + k) = 2 * (2 ^ 53 * 2 ^ k) := by
            rw [pow_add]
            norm_num
            ring
          rw [h10]
          omega
        have h9 : bitLen r < 54 + k := (Nat.pow_lt_pow_iff_right (by norm_num)).mp h8
        omega
    rw [hr, if_neg hov]
    refine ⟨r, q, rfl, ?_⟩
    rw [hk, mul_zpow_neg_le_natCast]
    exact hrN

end float64

/-- The quotient `int64` takes is the floor of the number. -/
theorem int64_trunc (m : Nat) (e : Int) :
    (if 0 ≤ e then (m : Int) * 2 ^ e.toNat else (m : Int) / 2 ^ (-e).toNat) =
      ⌊(m : ℚ) * 2 ^ e⌋ := by
  rcases le_or_lt 0 e with he | he
  · rw [if_pos he]
    obtain ⟨n, rfl⟩ := Int.eq_ofNat_of_zero_le he
    rw [Int.toNat_natCast, zpow_natCast]
    have h : ((m : ℚ) * 2 ^ n) = (((m : Int) * 2 ^ n : Int) : ℚ) := by push_cast; rfl
    rw [h, Int.floor_intCast]
  · rw [if_neg (not_le.mpr he)]
    obtain ⟨n, hn⟩ : ∃ n : Nat, e = -(n : Int) := ⟨(-e).toNat, by omega⟩
    subst hn
    rw [neg_neg, Int.toNat_natCast, zpow_neg, zpow_natCast, ← div_eq_mul_inv]
    have h : ((m : ℚ) / 2 ^ n) = ((m : Int) : ℚ) / ((2 ^ n : Nat) : ℚ) := by push_cast; rfl
    rw [h, Rat.floor_intCast_div_natCast]
    push_cast
    rfl

theorem int64_of_le (m : Nat) (e : Int) (h : (m : ℚ) * 2 ^ e ≤ 2970) :
    int64 (.finite false m e) = ⌊(m : ℚ) * 2 ^ e⌋ := by
  have h0 : (0 : ℚ) ≤ (m : ℚ) * 2 ^ e := by positivity
  have h2 : 0 ≤ ⌊(m : ℚ) * 2 ^ e⌋ := Int.floor_nonneg.mpr h0
  have h3 : ⌊(m : ℚ) * 2 ^ e⌋ ≤ 2970 := by
    have : ⌊(m : ℚ) * 2 ^ e⌋ ≤ ⌊(2970 : ℚ)⌋ := Int.floor_le_floor h
    simpa using this
  unfold int64
  simp only [Bool.false_eq_true, if_false]
  rw [int64_trunc, if_pos]
  constructor <;> omega

theorem float64.lt_2970 (m : Nat) (e : Int) :
    float64.lt (.finite false m e) (.finite false 2970 0) = decide ((m : ℚ) * 2 ^ e < 2970) := by
  rcases le_or_lt 0 e with he | he
  · obtain ⟨n, rfl⟩ := Int.eq_ofNat_of_zero_le he
    have h1 : min (n : Int) 0 = 0 := min_eq_right he
    simp only [float64.lt, float64.scaled, h1, Bool.false_eq_true, if_false, sub_zero,
      Int.toNat_natCast, Int.toNat_zero, pow_zero, mul_one, one_mul, zpow_natCast]
    congr 1
    apply propext
    constructor
    · intro h
      exact_mod_cast h
    · intro h
      exact_mod_cast h
  · obtain ⟨n, hn⟩ : ∃ n : Nat, e = -(n : Int) := ⟨(-e).toNat, by omega⟩
    subst hn
    have h1 : min (-(n : Int)) 0 = -(n : Int) := min_eq_left (by omega)
    have h2 := mul_zpow_neg_lt_natCast 2970 m n
    simp only [float64.lt, float64.scaled, h1, Bool.false_eq_true, if_false, sub_self,
      Int.toNat_zero, pow_zero, mul_one, one_mul, zero_sub, neg_neg, Int.toNat_natCast]
    congr 1
    apply propext
    rw [show ((2970 : Nat) : ℚ) = 2970 by norm_num] at h2
    rw [h2]
    constructor
    · intro h
      exact_mod_cast h
    · intro h
      exact_mod_cast h

theorem math.Min_2970 (m : Nat) (e : Int) :
    math.Min (.finite false m e) (.finite false 2970 0) =
      if (m : ℚ) * 2 ^ e < 2970 then .finite false m e else .finite false 2970 0 := by
  simp [math.Min, float64.isZero, float64.lt_2970]

/-- The conversion of the capped product, for a product that is finite and not negative. -/
theorem int64_Min_2970 (m : Nat) (e : Int) :
    int64 (math.Min (.finite false m e) (.finite false 2970 0)) =
      ⌊min ((m : ℚ) * 2 ^ e) 2970⌋ := by
  rw [math.Min_2970]
  split
  · rename_i h
    rw [int64_of_le m e (le_of_lt h), min_eq_left (le_of_lt h)]
  · rename_i h
    rw [min_eq_right (not_lt.mp h)]
    have : int64 (.finite false 2970 0) = 2970 := by decide
    rw [this]
    simp

theorem ofInt_WeightUnit : float64.ofInt WeightUnit = .finite false 3000 0 := by decide

theorem newDevelopWeight_eq : newDevelopWeight = 30 := by decide

theorem newInjectWeight_eq (w : float64) :
    newInjectWeight w =
      int64 (math.Min (float64.mul (float64.ofInt WeightUnit) w) (.finite false 2970 0)) := by
  have h : float64.ofInt
      (WeightUnit - int64 (float64.mul (float64.ofInt WeightUnit) defaultDevelopWeight)) =
      .finite false 2970 0 := by decide
  unfold newInjectWeight
  rw [h]

theorem mul_WeightUnit (neg : Bool) (m : Nat) (e : Int) :
    float64.mul (float64.ofInt WeightUnit) (.finite neg m e) =
      float64.round neg (3000 * m) e := by
  rw [ofInt_WeightUnit]
  simp [float64.mul]

/-- The weight of a fee fraction `m * 2^e`: the truncation of the capped rounded product, which
lies between the floor and the ceiling of the capped exact product. -/
theorem newInjectWeight_of_nonneg (m : Nat) (e : Int) :
    ((float64.mul (float64.ofInt WeightUnit) (.finite false m e) = .inf false ∧
        newInjectWeight (.finite false m e) = 2970) ∨
      ((float64.mul (float64.ofInt WeightUnit) (.finite false m e)).isFinite = true ∧
        0 ≤ (float64.mul (float64.ofInt WeightUnit) (.finite false m e)).toRat ∧
        newInjectWeight (.finite false m e) =
          ⌊min (float64.mul (float64.ofInt WeightUnit) (.finite false m e)).toRat 2970⌋)) ∧
    ⌊min (3000 * ((m : ℚ) * 2 ^ e)) 2970⌋ ≤ newInjectWeight (.finite false m e) ∧
    newInjectWeight (.finite false m e) ≤ ⌈min (3000 * ((m : ℚ) * 2 ^ e)) 2970⌉ := by
  rw [newInjectWeight_eq, mul_WeightUnit]
  have hx : ((3000 * m : Nat) : ℚ) * 2 ^ e = 3000 * ((m : ℚ) * 2 ^ e) := by
    push_cast
    ring
  generalize 3000 * ((m : ℚ) * 2 ^ e) = x at hx
  have hx0 : 0 ≤ x := by
    rw [← hx]
    positivity
  have hy0 : 0 ≤ min x 2970 := le_min hx0 (by norm_num)
  have hy1 : min x 2970 ≤ 2970 := min_le_right _ _
  have hf0 : 0 ≤ ⌊min x 2970⌋ := Int.floor_nonneg.mpr hy0
  have hf1 : ⌊min x 2970⌋ ≤ 2970 := by
    have : ⌊min x 2970⌋ ≤ ⌊(2970 : ℚ)⌋ := Int.floor_le_floor hy1
    simpa using this
  have hN : ((⌊min x 2970⌋.toNat : Nat) : Int) = ⌊min x 2970⌋ := Int.toNat_of_nonneg hf0
  have hNq : ((⌊min x 2970⌋.toNat : Nat) : ℚ) = ((⌊min x 2970⌋ : Int) : ℚ) := by
    have h : (((⌊min x 2970⌋.toNat : Nat) : Int) : ℚ) = ((⌊min x 2970⌋ : Int) : ℚ) :=
      congrArg Int.cast hN
    rw [Int.cast_natCast] at h
    exact h
  have hNx : ((⌊min x 2970⌋.toNat : Nat) : ℚ) ≤ ((3000 * m : Nat) : ℚ) * 2 ^ e := by
    rw [hNq, hx]
    exact le_trans (Int.floor_le _) (min_le_left _ _)
  have hN53 : ⌊min x 2970⌋.toNat ≤ 2 ^ 53 := by
    have : (⌊min x 2970⌋.toNat : Int) ≤ 2970 := by rw [hN]; exact hf1
    omega
  have hup : x ≤ 2970 → ∃ r q, float64.round false (3000 * m) e = .finite false r q ∧
      (r : ℚ) * 2 ^ q ≤ ((⌈x⌉.toNat : Nat) : ℚ) ∧ ((⌈x⌉.toNat : Nat) : Int) = ⌈x⌉ := by
    intro hx2
    have hc0 : 0 ≤ ⌈x⌉ := Int.ceil_nonneg hx0
    have hc1 : ⌈x⌉ ≤ 2970 := by
      apply Int.ceil_le.mpr
      simpa using hx2
    have hC : ((⌈x⌉.toNat : Nat) : Int) = ⌈x⌉ := Int.toNat_of_nonneg hc0
    have hCq : ((⌈x⌉.toNat : Nat) : ℚ) = ((⌈x⌉ : Int) : ℚ) := by
      have h : (((⌈x⌉.toNat : Nat) : Int) : ℚ) = ((⌈x⌉ : Int) : ℚ) := congrArg Int.cast hC
      rw [Int.cast_natCast] at h
      exact h
    have hC53 : ⌈x⌉.toNat < 2 ^ 53 := by
      have : (⌈x⌉.toNat : Int) ≤ 2970 := by rw [hC]; exact hc1
      omega
    obtain ⟨r, q, hr, hv⟩ := float64.round_le (3000 * m) e ⌈x⌉.toNat hC53 (by
      rw [hCq, hx]
      exact Int.le_ceil x)
    exact ⟨r, q, hr, hv, hC⟩
  rcases float64.round_ge (3000 * m) e ⌊min x 2970⌋.toNat hN53 hNx with hinf | ⟨r, q, hr, hv⟩
  · rw [hinf]
    have h2970 : int64 (math.Min (.inf false) (.finite false 2970 0)) = 2970 := by decide
    rw [h2970]
    refine ⟨Or.inl ⟨rfl, rfl⟩, hf1, ?_⟩
    have hx2 : ¬ x ≤ 2970 := by
      intro hx2
      obtain ⟨r, q, hr, -, -⟩ := hup hx2
      rw [hinf] at hr
      cases hr
    rw [min_eq_right (le_of_lt (not_le.mp hx2))]
    simp
  · rw [hr, int64_Min_2970]
    have hv0 : (0 : ℚ) ≤ (r : ℚ) * 2 ^ q := by positivity
    refine ⟨Or.inr ⟨rfl, ?_, ?_⟩, ?_, ?_⟩
    · simpa [float64.toRat] using hv0
    · simp [float64.toRat]
    · apply Int.le_floor.mpr
      rw [← hNq]
      refine le_min hv ?_
      rw [hNq]
      exact le_trans (Int.floor_le _) hy1
    · by_cases hx2 : x ≤ 2970
      · obtain ⟨r2, q2, hr2, hv2, hC⟩ := hup hx2
        rw [hr] at hr2
        cases hr2
        rw [min_eq_left hx2, ← hC]
        have h1 : ((⌊min ((r : ℚ) * 2 ^ q) 2970⌋ : Int) : ℚ) ≤ ((⌈x⌉.toNat : Nat) : ℚ) :=
          le_trans (Int.floor_le _) (le_trans (min_le_left _ _) hv2)
        exact_mod_cast h1
      · rw [min_eq_right (le_of_lt (not_le.mp hx2))]
        have : ⌊min ((r : ℚ) * 2 ^ q) 2970⌋ ≤ ⌊(2970 : ℚ)⌋ :=
          Int.floor_le_floor (min_le_right _ _)
        simpa using this


/-- The weight of a fee fraction that is finite and not negative. -/
theorem newInjectWeight_spec (w : float64) (hf : w.isFinite = true) (hw : 0 ≤ w.toRat) :
    ((float64.mul (float64.ofInt WeightUnit) w = .inf false ∧ newInjectWeight w = 2970) ∨
      ((float64.mul (float64.ofInt WeightUnit) w).isFinite = true ∧
        newInjectWeight w =
          truncate (min (float64.mul (float64.ofInt WeightUnit) w).toRat 2970))) ∧
    ⌊min (3000 * w.toRat) 2970⌋ ≤ newInjectWeight w ∧
    newInjectWeight w ≤ ⌈min (3000 * w.toRat) 2970⌉ := by
  cases w with
  | nan => simp [float64.isFinite] at hf
  | inf neg => simp [float64.isFinite] at hf
  | finite neg m e =>
    cases neg with
    | false =>
      obtain ⟨h1, h2, h3⟩ := newInjectWeight_of_nonneg m e
      have ht : (float64.finite false m e).toRat = (m : ℚ) * 2 ^ e := by simp [float64.toRat]
      rw [ht]
      refine ⟨?_, h2, h3⟩
      rcases h1 with h1 | ⟨h4, h5, h6⟩
      · exact Or.inl h1
      · refine Or.inr ⟨h4, ?_⟩
        rw [h6, truncate, if_pos (le_min h5 (by norm_num))]
    | true =>
      have hp : (0 : ℚ) < 2 ^ e := by positivity
      have hm : m = 0 := by
        by_contra hm
        have hm2 : (0 : ℚ) < (m : ℚ) := by exact_mod_cast Nat.pos_of_ne_zero hm
        have : (float64.finite true m e).toRat < 0 := by
          simp only [float64.toRat, if_true]
          nlinarith [mul_pos hm2 hp]
        linarith
      subst hm
      have hP : float64.mul (float64.ofInt WeightUnit) (.finite true 0 e) =
          .finite true 0 0 := by
        rw [mul_WeightUnit]
        simp [float64.round]
      have hn : newInjectWeight (.finite true 0 e) = 0 := by
        rw [newInjectWeight_eq, hP]
        decide
      rw [hP, hn]
      refine ⟨Or.inr ⟨rfl, ?_⟩, ?_, ?_⟩ <;> simp [float64.toRat, truncate]

/-- A NaN fee fraction gives the weight `-2^63` (as amd64 converts). -/
theorem newInjectWeight_nan : newInjectWeight .nan = -2 ^ 63 := by decide

/-- The constant `defaultDevelopWeight` is the `float64` nearest to `1/100`: a significand of
53 digits, within half a unit in the last place. -/
theorem defaultDevelopWeight_nearest :
    defaultDevelopWeight = .finite false 5764607523034235 (-59) ∧
    2 ^ 52 ≤ 5764607523034235 ∧ 5764607523034235 < 2 ^ 53 ∧
    |defaultDevelopWeight.toRat - 1 / 100| < 2 ^ (-60 : Int) := by
  refine ⟨rfl, by norm_num, by norm_num, ?_⟩
  rw [abs_lt]
  constructor <;> norm_num [defaultDevelopWeight, float64.toRat]

/-- The sample fee fractions are the `float64` nearest to `1/10`, `3/100` and `29/100`. -/
theorem sample_weights_nearest :
    |weightTenth.toRat - 1 / 10| < 2 ^ (-57 : Int) ∧
    |weightThreeHundredths.toRat - 3 / 100| < 2 ^ (-59 : Int) ∧
    |weightTwentyNineHundredths.toRat - 29 / 100| < 2 ^ (-55 : Int) ∧
    weightMinusHalf.toRat = -1 / 2 := by
  refine ⟨?_, ?_, ?_, ?_⟩
  · rw [abs_lt]
    constructor <;> norm_num [weightTenth, float64.toRat]
  · rw [abs_lt]
    constructor <;> norm_num [weightThreeHundredths, float64.toRat]
  · rw [abs_lt]
    constructor <;> norm_num [weightTwentyNineHundredths, float64.toRat]
  · norm_num [weightMinusHalf, float64.toRat]

theorem truncate_develop :
    truncate (float64.mul (float64.ofInt WeightUnit) defaultDevelopWeight).toRat = 30 := by
  have h : float64.mul (float64.ofInt WeightUnit) defaultDevelopWeight =
      .finite false 8444249301319680 (-48) := by decide
  rw [h]
  have h2 : (float64.finite false 8444249301319680 (-48)).toRat = 30 := by
    norm_num [float64.toRat]
  rw [h2]
  norm_num [truncate]


theorem New_fields (N : Network) (T : Token) (redisClient : Redis) (localConn : Option NetConn)
    (remoteRawURL : String) (option : ExtractorOption) (ext : extractor)
    (h : (New N T redisClient localConn remoteRawURL option).1 = .ok ext) :
    ext.injectWeight = newInjectWeight option.Weight ∧ ext.developWeight = newDevelopWeight := by
  unfold New NewExec at h
  iterate 16
    all_goals (try simp only [Exec.bind_apply, Exec.pure_apply, Exec.get_apply,
      Exec.returnErr_apply] at h)
    all_goals (try split at h)
  all_goals first | (cases h; exact ⟨rfl, rfl⟩) | cases h

/-- C6 as stated fails, for three fee fractions with which `New` succeeds.  With `-0.5` the
session's `injectWeight` is -1500, outside `[0, WeightUnit)`.  With the `float64` of `0.03`
it is 90, while `trunc(min(WeightUnit * fraction, WeightUnit - developWeight))` at the exact
value of that `float64` is 89.  With the `float64` of `0.29` it is 869, while the same
expression at the decimal `29/100` is 870. -/
theorem New_injectWeight_counterexample :
    (New (sampleNetwork fun _ => true) sampleToken {} (some {}) "tcp://pool.example:4444"
        { Weight := weightMinusHalf }).1.toOption.map extractor.injectWeight = some (-1500) ∧
    ¬ (0 : Int) ≤ -1500 ∧
    (New (sampleNetwork fun _ => true) sampleToken {} (some {}) "tcp://pool.example:4444"
        { Weight := weightThreeHundredths }).1.toOption.map extractor.injectWeight = some 90 ∧
    truncate (min ((WeightUnit : ℚ) * weightThreeHundredths.toRat)
      ((WeightUnit - 30 : Int) : ℚ)) = 89 ∧
    (New (sampleNetwork fun _ => true) sampleToken {} (some {}) "tcp://pool.example:4444"
        { Weight := weightTwentyNineHundredths }).1.toOption.map extractor.injectWeight =
      some 869 ∧
    truncate (min ((WeightUnit : ℚ) * (29 / 100)) ((WeightUnit - 30 : Int) : ℚ)) = 870 := by
  have hnew : ∀ w : float64,
      (New (sampleNetwork fun _ => true) sampleToken {} (some {}) "tcp://pool.example:4444"
        { Weight := w }).1 = .ok
          { option := { Token := "ETH", Weight := w }
            localConn := jsonrpcNew (some {})
            remoteConn := some ⟨some {}⟩
            injectConn := none
            developConn := some ⟨some {}⟩
            injectWeight := newInjectWeight w
            developWeight := newDevelopWeight
            redisClient := {} } := fun _ => rfl
  have h1 : newInjectWeight weightMinusHalf = -1500 := by decide
  have h2 : newInjectWeight weightThreeHundredths = 90 := by decide
  have h3 : newInjectWeight weightTwentyNineHundredths = 869 := by decide
  have hW : (WeightUnit : ℚ) = 3000 := by norm_num [WeightUnit, Thread]
  have hC : ((WeightUnit - 30 : Int) : ℚ) = 2970 := by norm_num [WeightUnit, Thread]
  refine ⟨?_, by decide, ?_, ?_, ?_, ?_⟩
  · rw [hnew]
    simp [Except.toOption, h1]
  · rw [hnew]
    simp [Except.toOption, h2]
  · rw [hW, hC]
    have hx : (3000 : ℚ) * weightThreeHundredths.toRat ≤ 2970 := by
      norm_num [weightThreeHundredths, float64.toRat]
    have h0 : (0 : ℚ) ≤ 3000 * weightThreeHundredths.toRat := by
      norm_num [weightThreeHundredths, float64.toRat]
    rw [min_eq_left hx, truncate, if_pos h0, Int.floor_eq_iff]
    constructor <;> norm_num [weightThreeHundredths, float64.toRat]
  · rw [hnew]
    simp [Except.toOption, h3]
  · rw [hW, hC]
    norm_num [truncate]

/-- C6, amended.  For every fee fraction passed to `New` that is a finite `float64` and is not
negative, the session has `developWeight = trunc(fl(WeightUnit * 0.01)) = 30` and
`injectWeight = trunc(min(fl(WeightUnit * fraction), WeightUnit - developWeight))` with
`WeightUnit = 3000`, where `fl` is the `float64` product, the exact product rounded to the
nearest `float64` (a product that overflows to the infinity gives
`WeightUnit - developWeight`).  Taken in exact rationals, `injectWeight` lies between the
floor and the ceiling of `min(WeightUnit * fraction, WeightUnit - developWeight)`.  Both
weights are in `[0, WeightUnit)` and their sum is at most `WeightUnit`. -/
theorem New_weights (N : Network) (T : Token) (redisClient : Redis)
    (localConn : Option NetConn) (remoteRawURL : String) (option : ExtractorOption)
    (ext : extractor)
    (hf : option.Weight.isFinite = true) (hw : 0 ≤ option.Weight.toRat)
    (h : (New N T redisClient localConn remoteRawURL option).1 = .ok ext) :
    ext.developWeight =
      truncate (float64.mul (float64.ofInt WeightUnit) defaultDevelopWeight).toRat ∧
    ext.developWeight = 30 ∧
    WeightUnit = 3000 ∧
    ((float64.mul (float64.ofInt WeightUnit) option.Weight = .inf false ∧
        ext.injectWeight = WeightUnit - ext.developWeight) ∨
      ((float64.mul (float64.ofInt WeightUnit) option.Weight).isFinite = true ∧
        ext.injectWeight = truncate (min
          (float64.mul (float64.ofInt WeightUnit) option.Weight).toRat
          ((WeightUnit - ext.developWeight : Int) : ℚ)))) ∧
    ⌊min ((WeightUnit : ℚ) * option.Weight.toRat)
        ((WeightUnit - ext.developWeight : Int) : ℚ)⌋ ≤ ext.injectWeight ∧
    ext.injectWeight ≤ ⌈min ((WeightUnit : ℚ) * option.Weight.toRat)
        ((WeightUnit - ext.developWeight : Int) : ℚ)⌉ ∧
    0 ≤ ext.developWeight ∧ ext.developWeight < WeightUnit ∧
    0 ≤ ext.injectWeight ∧ ext.injectWeight < WeightUnit ∧
    ext.injectWeight + ext.developWeight ≤ WeightUnit := by
  obtain ⟨h1, h2⟩ := New_fields N T redisClient localConn remoteRawURL option ext h
  obtain ⟨h3, h4, h5⟩ := newInjectWeight_spec option.Weight hf hw
  have hW : WeightUnit = 3000 := by decide
  have hWq : (WeightUnit : ℚ) = 3000 := by norm_num [WeightUnit, Thread]
  have hC : (((3000 : Int) - 30 : Int) : ℚ) = 2970 := by norm_num
  have h0 : (0 : ℚ) ≤ min (3000 * option.Weight.toRat) 2970 :=
    le_min (by positivity) (by norm_num)
  have h6 : 0 ≤ newInjectWeight option.Weight := le_trans (Int.floor_nonneg.mpr h0) h4
  have h7 : newInjectWeight option.Weight ≤ 2970 := by
    have h8 : ⌈min (3000 * option.Weight.toRat) 2970⌉ ≤ 2970 := by
      apply Int.ceil_le.mpr
      simp
    exact le_trans h5 h8
  rw [h2, newDevelopWeight_eq, h1, truncate_develop, hWq, hW, hC]
  refine ⟨rfl, rfl, rfl, ?_, h4, h5, by decide, by decide, h6, by omega, by omega⟩
  rcases h3 with ⟨h9, h10⟩ | h9
  · exact Or.inl ⟨h9, by rw [h10]; rfl⟩
  · exact Or.inr h9

/-- C6 amended, at the fee fraction `0.1`: `New` succeeds and the session has
`injectWeight = 300` and `developWeight = 30`. -/
theorem New_weights_witness :
    weightTenth.isFinite = true ∧ 0 ≤ weightTenth.toRat ∧
    (New (sampleNetwork fun _ => true) sampleToken {} (some {}) "tcp://pool.example:4444"
        { Weight := weightTenth }).1 = .ok builtSession ∧
    builtSession.developWeight = 30 ∧
    builtSession.injectWeight + builtSession.developWeight ≤ WeightUnit ∧
    builtSession.injectWeight = 300 :=
  have hw : (0 : ℚ) ≤ weightTenth.toRat := by norm_num [weightTenth, float64.toRat]
  have h := New_weights (sampleNetwork fun _ => true) sampleToken {} (some {})
    "tcp://pool.example:4444" { Weight := weightTenth } builtSession rfl hw rfl
  ⟨rfl, hw, rfl, h.2.1, h.2.2.2.2.2.2.2.2.2.2, by decide⟩

/-! ## The inject pump -/

namespace Conn

theorem write_sent_cases (c : Conn) (b : String) :
    ((c.Write b).2 = c ∧ ∀ n, (c.Write b).1 ≠ .ok n) ∨
      ((c.Write b).2.sent = c.sent ++ b ++ "\n" ∧ c.writable = true) := by
  match c with
  | none => left; exact ⟨rfl, by simp [Conn.Write, Conn.call]⟩
  | some ⟨none⟩ => left; exact ⟨rfl, by simp [Conn.Write, Conn.call, conn.Write]⟩
  | some ⟨some nc⟩ =>
    by_cases hw : Conn.writable (some ⟨some nc⟩) = true
    · right
      rw [Conn.write_of_writable _ _ hw, Conn.sent_push _ _ (Conn.live_of_writable _ hw)]
      exact ⟨by simp [String.append_assoc], hw⟩
    · left
      simp only [Conn.writable, Bool.and_eq_true, Bool.not_eq_true', Option.isNone_iff_eq_none,
        not_and] at hw
      by_cases hc : nc.closed = true
      · simp [Conn.Write, Conn.call, conn.Write, NetConn.Write, hc, liftErr]
      · have hc2 : nc.closed = false := by simpa using hc
        have := hw hc2
        cases he : nc.writeErr with
        | none => exact absurd he this
        | some err => simp [Conn.Write, Conn.call, conn.Write, NetConn.Write, hc2, he, liftErr]

end Conn

namespace extractor

theorem inject_cases (e : extractor) (data : String) :
    (inject data e).2.redisClient = e.redisClient ∧
    ((inject data e).2.localConn = e.localConn ∨
      (inject data e).2.localConn.sent = e.localConn.sent ++ data ++ "\n") := by
  rcases Conn.write_sent_cases e.localConn data with ⟨h1, h2⟩ | ⟨h1, h2⟩
  · cases hl : e.locker <;> simp [inject, Lock, hl, onLocal, Unlock, h1] <;>
      split <;> simp_all
  · cases hl : e.locker
    · rw [inject_ok _ _ hl h2]
      refine ⟨rfl, Or.inr ?_⟩
      simp [Conn.sent_push _ _ (Conn.live_of_writable _ h2), String.append_assoc]
    · simp [inject, Lock, hl]

end extractor

theorem Redis.find_set (r : Redis) (key value : String) (ttl : Nat)
    (h : (r.Set key value ttl).1 = .ok ()) :
    (r.Set key value ttl).2.find key = some ⟨key, value, ttl⟩ := by
  unfold Redis.Set at h ⊢
  cases hd : r.down with
  | some err => simp [hd] at h
  | none => simp [Redis.find]

namespace extractor

theorem afterRead_state (rd : ReadLine) (e : extractor) : (afterRead rd e).2 = e := by
  unfold afterRead
  rcases rd.err with _ | err <;> rcases decide (rd.data = "") with _ | _ <;>
    simp only [] <;> (try split) <;> rfl

/-- C9.  One iteration of the inject pump, for every read result and every result of the
draw.  If the miner receives anything, then the line decodes to a `mining.notify`, the draw
returned an `n` below `injectWeight`, the first parameter is a string `id`, the store
accepted `id -> "inject"` with 60 seconds to live and holds it, and what the miner received is
the line followed by the line terminator.  A line that decodes to another method, and a
notify whose draw is at least `injectWeight`, leave the miner connection and the store as
they were. -/
theorem handleOutboundInjectStep_forward (J : Json) (now : Int) (rd : ReadLine)
    (draw : Except GoError Nat) (e : extractor) :
    ((handleOutboundInjectStep J now rd draw e).2.localConn.sent ≠ e.localConn.sent →
      ∃ request n id rest,
        J.unmarshalRequest rd.data = .ok request ∧
        request.Method = MethodNiceHashNotify ∧
        draw = .ok n ∧ (n : Int) < e.injectWeight ∧
        J.unmarshalNotifyParams request.Params = .ok (.string id :: rest) ∧
        (e.redisClient.Set id JobInject 60).1 = .ok () ∧
        (handleOutboundInjectStep J now rd draw e).2.redisClient
          = (e.redisClient.Set id JobInject 60).2 ∧
        (handleOutboundInjectStep J now rd draw e).2.redisClient.find id
          = some ⟨id, JobInject, 60⟩ ∧
        (handleOutboundInjectStep J now rd draw e).2.localConn.sent
          = e.localConn.sent ++ rd.data ++ "\n") ∧
    (∀ request, J.unmarshalRequest rd.data = .ok request →
      (request.Method ≠ MethodNiceHashNotify ∨ ∃ n, draw = .ok n ∧ e.injectWeight ≤ (n : Int)) →
      (handleOutboundInjectStep J now rd draw e).2.localConn = e.localConn ∧
      (handleOutboundInjectStep J now rd draw e).2.redisClient = e.redisClient) := by
  constructor
  · intro hne
    unfold handleOutboundInjectStep at hne ⊢
    simp only [Exec.bind_apply, Exec.get_apply, Exec.check_apply, Exec.pure_apply] at hne ⊢
    cases h1 : (onInject (fun x => x.SetReadDeadlineBySecond now e.option.Timeout) e).1 with
    | error x => simp only [h1] at hne; simp [onInject, afterRead_state] at hne
    | ok u =>
      simp only [h1, afterRead_state] at hne ⊢
      cases h2 : (afterRead rd
          (onInject (fun x => x.SetReadDeadlineBySecond now e.option.Timeout) e).2).1 with
      | error x => simp only [h2] at hne; simp [onInject, afterRead_state] at hne
      | ok u2 =>
        simp only [h2] at hne ⊢
        cases h3 : J.unmarshalRequest rd.data with
        | error x => simp only [h3] at hne; simp [onInject, afterRead_state] at hne
        | ok request =>
          simp only [h3, liftErr_ok] at hne ⊢
          by_cases hm : request.Method = MethodNiceHashNotify
          · simp only [hm, if_true, Exec.bind_apply, Exec.check_apply] at hne ⊢
            cases hd : draw with
            | error x => simp only [hd] at hne; simp [onInject, afterRead_state] at hne
            | ok n =>
              simp only [hd, liftErr_ok] at hne ⊢
              by_cases hlt : (n : Int) < e.injectWeight
              · simp only [hlt, if_true, Exec.bind_apply, Exec.check_apply] at hne ⊢
                cases hp : J.unmarshalNotifyParams request.Params with
                | error x => simp only [hp] at hne; simp [onInject, afterRead_state] at hne
                | ok params =>
                  simp only [hp, liftErr_ok] at hne ⊢
                  match params with
                  | [] => simp [onInject] at hne
                  | .other _ :: _ => simp [onInject] at hne
                  | .string id :: rest =>
                    simp only [Exec.bind_apply] at hne ⊢
                    cases hs : (e.redisClient.Set id JobInject 60).1 with
                    | error x =>
                      simp [redisSet, onInject, timeMinute, hs] at hne
                    | ok u3 =>
                      have hset : (redisSet id JobInject timeMinute
                          (onInject (fun x => x.SetReadDeadlineBySecond now e.option.Timeout) e).2).1
                            = .ok () := by
                        simp [redisSet, onInject, timeMinute, hs]
                      simp only [hset] at hne ⊢
                      obtain ⟨hr, hl⟩ := inject_cases (redisSet id JobInject timeMinute
                        (onInject (fun x => x.SetReadDeadlineBySecond now e.option.Timeout) e).2).2
                        rd.data
                      refine ⟨request, n, id, rest, rfl, hm, rfl, hlt, hp, hs, ?_, ?_, ?_⟩
                      · rw [hr]; rfl
                      · rw [hr]; exact Redis.find_set _ _ _ _ hs
                      · rcases hl with hl | hl
                        · rw [hl] at hne
                          exact absurd rfl hne
                        · rw [hl]; rfl
              · simp only [hlt] at hne; simp [onInject, afterRead_state] at hne
          · simp only [hm] at hne; simp [onInject, afterRead_state] at hne
  · intro request hreq hcase
    unfold handleOutboundInjectStep
    simp only [Exec.bind_apply, Exec.get_apply, Exec.check_apply, Exec.pure_apply]
    cases h1 : (onInject (fun x => x.SetReadDeadlineBySecond now e.option.Timeout) e).1 with
    | error x => exact ⟨rfl, rfl⟩
    | ok u =>
      simp only [afterRead_state]
      cases h2 : (afterRead rd
          (onInject (fun x => x.SetReadDeadlineBySecond now e.option.Timeout) e).2).1 with
      | error x => exact ⟨rfl, rfl⟩
      | ok u2 =>
        simp only [hreq, liftErr_ok]
        rcases hcase with hm | ⟨n, hd, hge⟩
        · simp only [hm, if_false]
          exact ⟨rfl, rfl⟩
        · by_cases hm : request.Method = MethodNiceHashNotify
          · have hlt : ¬ (n : Int) < e.injectWeight := not_lt.mpr hge
            simp only [hm, if_true, Exec.bind_apply, Exec.check_apply, hd, liftErr_ok, hlt,
              if_false]
            exact ⟨rfl, rfl⟩
          · simp only [hm, if_false]
            exact ⟨rfl, rfl⟩


/-- C9, at a concrete notify from the inject upstream with the winning draw 5 (the session's
`injectWeight` is 300): the miner receives the line and the store maps `jobA` to inject. -/
theorem handleOutboundInjectStep_forward_witness :
    (handleOutboundInjectStep goJson 100 { data := notifyJobA } (.ok 5) sampleSession).2.localConn.sent
      ≠ sampleSession.localConn.sent ∧
    ∃ request n id rest,
      goJson.unmarshalRequest notifyJobA = .ok request ∧
      request.Method = MethodNiceHashNotify ∧
      (.ok 5 : Except GoError Nat) = .ok n ∧ (n : Int) < sampleSession.injectWeight ∧
      goJson.unmarshalNotifyParams request.Params = .ok (.string id :: rest) ∧
      (sampleSession.redisClient.Set id JobInject 60).1 = .ok () ∧
      (handleOutboundInjectStep goJson 100 { data := notifyJobA } (.ok 5) sampleSession).2.redisClient
        = (sampleSession.redisClient.Set id JobInject 60).2 ∧
      (handleOutboundInjectStep goJson 100 { data := notifyJobA } (.ok 5) sampleSession).2.redisClient.find id
        = some ⟨id, JobInject, 60⟩ ∧
      (handleOutboundInjectStep goJson 100 { data := notifyJobA } (.ok 5) sampleSession).2.localConn.sent
        = sampleSession.localConn.sent ++ notifyJobA ++ "\n" :=
  ⟨by decide,
    (handleOutboundInjectStep_forward goJson 100 { data := notifyJobA } (.ok 5) sampleSession).1
      (by decide)⟩

/-- The inject pump on `notifyJobA` with the winning draw 5, evaluated. -/
theorem handleOutboundInjectStep_notifyJobA :
    (handleOutboundInjectStep goJson 100 { data := notifyJobA } (.ok 5) sampleSession).1 = .ok () ∧
    (handleOutboundInjectStep goJson 100 { data := notifyJobA } (.ok 5) sampleSession).2.localConn.sent
      = notifyJobA ++ "\n" ∧
    (handleOutboundInjectStep goJson 100 { data := notifyJobA } (.ok 5)
      sampleSession).2.redisClient.Get "jobA" = JobInject ∧
    (handleOutboundInjectStep goJson 100 { data := notifyJobA } (.ok 300) sampleSession).2.localConn.sent
      = "" ∧
    (handleOutboundInjectStep goJson 100 { data := notifyJobA } (.ok 300)
      sampleSession).2.redisClient.Get "jobA" = "" := by
  decide


/-- The submit case of the inbound pump: a line that decodes to a `mining.submit` with at
least two parameters is handed to `handleSubmit` with the second parameter as job id. -/
theorem handleInboundStep_submit (J : Json) (T : Token) (now : Int) (rd : ReadLine)
    (e : extractor) (request : Request) (user id : String) (rest : List String)
    (hdev : e.developConn.live = true)
    (hread : rd.err = none ∨ rd.data ≠ "") (hfull : rd.isPrefix = false)
    (hreq : J.unmarshalRequest rd.data = .ok request)
    (hm : request.Method = MethodNiceHashSubmit)
    (hparams : J.unmarshalSubmitParams request.Params = .ok (user :: id :: rest)) :
    handleInboundStep J T now rd e =
      handleSubmit J id rd.data
        { e with developConn := (e.developConn.SetReadDeadlineBySecond now e.option.Timeout).2 } := by
  have h1 : MethodNiceHashSubmit ≠ MethodNiceHashSubscribe := by decide
  have h2 : MethodNiceHashSubmit ≠ MethodNiceHashAuthorize := by decide
  simp [handleInboundStep, ignoreErr_deadline _ _ _ hdev, afterRead_ok _ _ hread hfull, hreq,
    hm, h1, h2, hparams]

end extractor

/-! ## The write lock, session construction failures, and the two pumps side by side -/

namespace extractor

/-- A call of `inject` with the lock free and a miner connection whose write returns an
error: the call returns that error and the lock is still held. -/
theorem inject_error_holds_lock (e : extractor) (data : String) (x : Fault) (c : Conn)
    (hl : e.locker = false) (hw : e.localConn.Write data = (.error x, c)) :
    inject data e = (.error x, { e with locker := true, localConn := c }) := by
  simp [inject, Lock, hl, onLocal, hw]

/-- C7 fails on the error path.  With the lock free and a miner socket whose write fails,
`inject` returns the write error and leaves the lock held; the next call of `inject` on the
session never gets past `Lock`. -/
theorem inject_write_error_leaves_lock_held :
    brokenMinerSession.locker = false ∧
    (inject "line" brokenMinerSession).1 = .error (.error "write: broken pipe") ∧
    (inject "line" brokenMinerSession).2.locker = true ∧
    (inject "next" (inject "line" brokenMinerSession).2).1 = .error .blocked ∧
    (inject "line" sampleSession).1 = .ok () ∧
    (inject "line" sampleSession).2.locker = false := by
  decide

end extractor

/-- C8 fails in three ways.  (1) With the unsupported token `DOGE`, `New` has dialed origin
before it rejects the token, and returns the error with the origin connection open.
(2) When the origin host cannot be dialed, `Dial` drops the dialer's error and `New` returns
a session and no error; the session's origin connection holds a nil socket.  (3) When the
develop host cannot be dialed and no inject pool is configured, `New` likewise returns a
session and no error, with the origin connection open. -/
theorem New_failures_not_reported :
    (New (sampleNetwork fun _ => true) sampleToken {} (some {}) "tcp://pool.example:4444"
        { Token := "DOGE" }).1 = .error (.error "DOGE token isn't supported") ∧
    (New (sampleNetwork fun _ => true) sampleToken {} (some {}) "tcp://pool.example:4444"
        { Token := "DOGE" }).2.remoteConn.isOpen = true ∧
    ((New (sampleNetwork fun host => host != "pool.example:4444") sampleToken {} (some {})
        "tcp://pool.example:4444" { Token := "ETH" }).1.toOption.map extractor.remoteConn)
      = some (some ⟨none⟩) ∧
    ((New (sampleNetwork fun host => host != "asia2.ethermine.org:5555") sampleToken {} (some {})
        "tcp://pool.example:4444" { Token := "ETH" }).1.toOption.map extractor.developConn)
      = some (some ⟨none⟩) ∧
    (New (sampleNetwork fun host => host != "asia2.ethermine.org:5555") sampleToken {} (some {})
        "tcp://pool.example:4444" { Token := "ETH" }).2.remoteConn.isOpen = true := by
  decide

namespace extractor

/-- C10 fails on a winning notify with an empty parameter list: the develop pump returns the
error `invalid parameter`, the inject pump indexes the empty slice and panics.  On a notify
with a job id both pumps forward the line. -/
theorem pumps_differ_on_empty_params :
    goJson.unmarshalRequest notifyNoParams
      = .ok { ID := 0, Method := "mining.notify", Params := "[]" } ∧
    goJson.unmarshalNotifyParams "[]" = .ok [] ∧
    (handleOutboundDevelopStep goJson 100 { data := notifyNoParams } (.ok 5) sampleSession).1
      = .error (.error "invalid parameter") ∧
    (handleOutboundInjectStep goJson 100 { data := notifyNoParams } (.ok 5) sampleSession).1
      = .error (.panic indexOutOfRange) ∧
    (handleOutboundDevelopStep goJson 100 { data := notifyJobA } (.ok 5) sampleSession).1 = .ok () ∧
    (handleOutboundInjectStep goJson 100 { data := notifyJobA } (.ok 5) sampleSession).1 = .ok () := by
  decide

end extractor

/-! ## Read deadlines -/

theorem Exec.ignoreErr_state {σ : Type} (m : Exec σ Unit) (s : σ) :
    (Exec.ignoreErr m s).2 = (m s).2 := by
  unfold Exec.ignoreErr
  split <;> rfl

namespace Conn

theorem readDeadline_set (c : Conn) (now t : Int) (h : c.isOpen = true) :
    (c.SetReadDeadlineBySecond now t).1 = .ok () ∧
      (c.SetReadDeadlineBySecond now t).2.readDeadline = some (expectedDeadline now t) := by
  match c, h with
  | some ⟨some nc⟩, h =>
    have hc : nc.closed = false := by simpa [Conn.isOpen] using h
    by_cases ht : t = 0 <;>
      simp [Conn.SetReadDeadlineBySecond, Conn.call, conn.SetReadDeadlineBySecond,
        conn.SetReadDeadline, NetConn.SetReadDeadline, hc, liftErr, Conn.readDeadline,
        expectedDeadline, ht]

theorem readDeadline_write (c : Conn) (b : String) :
    (c.Write b).2.readDeadline = c.readDeadline := by
  match c with
  | none => rfl
  | some ⟨none⟩ => rfl
  | some ⟨some nc⟩ =>
    simp only [Conn.Write, Conn.call, conn.Write, NetConn.Write]
    split
    · rfl
    · split <;> rfl

end Conn

namespace extractor

/-- What `inject` leaves alone: everything but the miner connection and the lock; and the
read deadline of the miner connection. -/
theorem inject_frame (e : extractor) (data : String) :
    (inject data e).2.remoteConn = e.remoteConn ∧
    (inject data e).2.injectConn = e.injectConn ∧
    (inject data e).2.developConn = e.developConn ∧
    (inject data e).2.localConn.readDeadline = e.localConn.readDeadline := by
  cases hl : e.locker
  · simp only [inject, Exec.bind_apply, Lock, hl, onLocal, Unlock, Exec.pure_apply]
    cases hw : (e.localConn.Write data).1 <;>
      simp [hw, Conn.readDeadline_write]
  · simp [inject, Lock, hl]

/-- The origin pump never touches the origin connection: whatever the read returns, the
iteration leaves `remoteConn`, and with it its read deadline, as it was. -/
theorem handleOutboundOriginStep_remoteConn (now : Int) (rd : ReadLine) (e : extractor) :
    (handleOutboundOriginStep now rd e).2.remoteConn = e.remoteConn := by
  unfold handleOutboundOriginStep
  simp only [Exec.bind_apply, Exec.get_apply]
  cases h1 : (onDevelop (fun x => x.SetReadDeadlineBySecond now e.option.Timeout) e).1 with
  | error x => rfl
  | ok u =>
    simp only [afterRead_state]
    cases h2 : (afterRead rd
        (onDevelop (fun x => x.SetReadDeadlineBySecond now e.option.Timeout) e).2).1 with
    | error x => rfl
    | ok u2 =>
      simp only []
      rw [(inject_frame _ _).1]
      rfl

end extractor

namespace extractor

/-- The inject pump changes its own connection only by the deadline call that opens the
iteration. -/
theorem handleOutboundInjectStep_injectConn (J : Json) (now : Int) (rd : ReadLine)
    (draw : Except GoError Nat) (e : extractor) :
    (handleOutboundInjectStep J now rd draw e).2.injectConn
      = (e.injectConn.SetReadDeadlineBySecond now e.option.Timeout).2 := by
  unfold handleOutboundInjectStep
  iterate 10
    all_goals (try simp only [Exec.bind_apply, Exec.get_apply, Exec.check_apply,
      Exec.pure_apply, Exec.fail_apply, Exec.returnErr_apply, afterRead_state])
    all_goals (try split)
  all_goals simp [onInject, redisSet, (inject_frame _ _).2.1, afterRead_state]

/-- The develop pump changes its own connection only by the deadline call that opens the
iteration. -/
theorem handleOutboundDevelopStep_developConn (J : Json) (now : Int) (rd : ReadLine)
    (draw : Except GoError Nat) (e : extractor) :
    (handleOutboundDevelopStep J now rd draw e).2.developConn
      = (e.developConn.SetReadDeadlineBySecond now e.option.Timeout).2 := by
  unfold handleOutboundDevelopStep
  iterate 10
    all_goals (try simp only [Exec.bind_apply, Exec.get_apply, Exec.check_apply,
      Exec.pure_apply, Exec.fail_apply, Exec.returnErr_apply, afterRead_state])
    all_goals (try split)
  all_goals simp [onDevelop, redisSet, (inject_frame _ _).2.2.1, afterRead_state]

end extractor

namespace extractor

/-- The inbound pump never sets the read deadline of the miner connection it reads from:
whatever the line, the iteration leaves that deadline as it was. -/
theorem handleInboundStep_localConn_readDeadline (J : Json) (T : Token) (now : Int)
    (rd : ReadLine) (e : extractor) :
    (handleInboundStep J T now rd e).2.localConn.readDeadline = e.localConn.readDeadline := by
  unfold handleInboundStep handleSubmit
  iterate 14
    all_goals (try simp only [Exec.bind_apply, Exec.get_apply, Exec.check_apply,
      Exec.pure_apply, Exec.fail_apply, Exec.returnErr_apply, afterRead_state,
      Exec.ignoreErr_state])
    all_goals (try split)
  all_goals simp [onInject, onDevelop, onRemote, Exec.ignoreErr_state,
    (inject_frame _ _).2.2.2, afterRead_state]

/-- In the inject pump the connection about to be read, when open, has its read deadline set
to the clock plus the timeout (3 seconds for a timeout of 0). -/
theorem handleOutboundInjectStep_deadline (J : Json) (now : Int) (rd : ReadLine)
    (draw : Except GoError Nat) (e : extractor) (h : e.injectConn.isOpen = true) :
    (handleOutboundInjectStep J now rd draw e).2.injectConn.readDeadline
      = some (expectedDeadline now e.option.Timeout) := by
  rw [handleOutboundInjectStep_injectConn]
  exact (Conn.readDeadline_set _ _ _ h).2

/-- In the develop pump the connection about to be read, when open, has its read deadline
set to the clock plus the timeout (3 seconds for a timeout of 0). -/
theorem handleOutboundDevelopStep_deadline (J : Json) (now : Int) (rd : ReadLine)
    (draw : Except GoError Nat) (e : extractor) (h : e.developConn.isOpen = true) :
    (handleOutboundDevelopStep J now rd draw e).2.developConn.readDeadline
      = some (expectedDeadline now e.option.Timeout) := by
  rw [handleOutboundDevelopStep_developConn]
  exact (Conn.readDeadline_set _ _ _ h).2

/-- C11 fails in two of the four pumps.  The inbound pump reads the miner connection and the
origin pump reads the origin connection, but both set the read deadline of the develop
connection: after an iteration at clock 100 the connection they read from has no read
deadline at all, and develop has 103 (timeout 0) or 105 (timeout 5).  The inject and develop
pumps do set the deadline of the connection they read from. -/
theorem pump_read_deadlines :
    expectedDeadline 100 0 = 103 ∧ expectedDeadline 100 5 = 105 ∧
    (handleInboundStep goJson sampleToken 100 { data := submitJob1 }
      sampleSession).2.localConn.readDeadline = none ∧
    (handleInboundStep goJson sampleToken 100 { data := submitJob1 }
      sampleSession).2.developConn.readDeadline = some 103 ∧
    (handleInboundStep goJson sampleToken 100 { data := submitJob1 }
      timeoutSession).2.localConn.readDeadline = none ∧
    (handleOutboundOriginStep 100 { data := notifyJobA }
      sampleSession).2.remoteConn.readDeadline = none ∧
    (handleOutboundOriginStep 100 { data := notifyJobA }
      sampleSession).2.developConn.readDeadline = some 103 ∧
    (handleOutboundOriginStep 100 { data := notifyJobA }
      timeoutSession).2.remoteConn.readDeadline = none ∧
    (handleOutboundInjectStep goJson 100 { data := notifyJobA } (.ok 5)
      sampleSession).2.injectConn.readDeadline = some 103 ∧
    (handleOutboundInjectStep goJson 100 { data := notifyJobA } (.ok 5)
      timeoutSession).2.injectConn.readDeadline = some 105 ∧
    (handleOutboundDevelopStep goJson 100 { data := notifyJobA } (.ok 5)
      sampleSession).2.developConn.readDeadline = some 103 ∧
    (handleOutboundDevelopStep goJson 100 { data := notifyJobA } (.ok 5)
      timeoutSession).2.developConn.readDeadline = some 105 := by
  decide

end extractor


end Tier2pool
